import Mathlib

/-!
Verification development for the verilog2spice gate-level rewriting and
lowering engine.  The definitions below are a shallow embedding of the
Python sources (src/verilog2spice/mapper.py, spice_generator.py,
spice_parser.py, parser.py): Python dicts become insertion-ordered
association lists, Python sets become lists used only through membership,
signal ids become natural numbers, and the unbounded recursions of the
source (leaf collection, subcircuit expansion) take an explicit fuel
argument that is always sufficient on terminating inputs.
-/

namespace V2S

/-! ## Association-list helpers (Python dict / set semantics) -/

/-- Lookup in an insertion-ordered association list (Python `d[k]` / `d.get(k)`). -/
def lookupA {κ β : Type} [DecidableEq κ] : List (κ × β) → κ → Option β
  | [], _ => none
  | p :: rest, k => if p.1 = k then some p.2 else lookupA rest k

/-- Lookup with default (Python `d.get(k, dflt)`). -/
def lookupD {κ β : Type} [DecidableEq κ] (m : List (κ × β)) (k : κ) (dflt : β) : β :=
  (lookupA m k).getD dflt

/-- Python `d[k] = v`: update in place when the key exists (keeping its
position, as Python dicts do), otherwise append at the end. -/
def updateA {κ β : Type} [DecidableEq κ] : List (κ × β) → κ → β → List (κ × β)
  | [], k, v => [(k, v)]
  | p :: rest, k, v => if p.1 = k then (k, v) :: rest else p :: updateA rest k v

/-- Python `x in collection` membership test. -/
def memL {α : Type} [DecidableEq α] : List α → α → Bool
  | [], _ => false
  | x :: rest, a => if x = a then true else memL rest a

/-! ## Netlist data model (Yosys JSON module data) -/

/-- A single bit of a Yosys connection: either an integer signal id or a
constant string bit such as "0", "1", "x". -/
inductive SigBit where
  | id (n : Nat)
  | const (s : String)
deriving DecidableEq

/-- A cell of a Yosys module: type tag, pin connections (pin name to bit
list) and pin directions.  Only the keys read by the rewrite passes are
modelled. -/
structure Cell where
  type : String
  connections : List (String × List SigBit)
  portDirections : List (String × String)
deriving DecidableEq

/-- The cells dict of a module, in insertion order. -/
abbrev CellsT := List (String × Cell)

/-- One port entry of a module: direction and bit list. -/
structure PortInfo where
  direction : String
  bits : List SigBit
deriving DecidableEq

/-- The part of the Yosys module data read by the rewrite passes. -/
structure ModuleData where
  ports : List (String × PortInfo)
deriving DecidableEq

/-- The cell library as the rewrite passes see it: only cell-name
membership in `cells` is consulted, so the names suffice. -/
structure CellLibrary where
  cells : List String
deriving DecidableEq

/-- Python `_first_int`: the first element of a signal list when it is an
integer id. -/
def firstInt : List SigBit → Option Nat
  | SigBit.id n :: _ => some n
  | _ => none

/-- Connection list of a pin (Python `conns.get(pin, [])`). -/
def getConn (c : Cell) (pin : String) : List SigBit :=
  lookupD c.connections pin []

/-- The scalar A/B/Y triple of a cell, as both passes compute it. -/
def cellABYOf (c : Cell) : Option Nat × Option Nat × Option Nat :=
  (firstInt (getConn c "A"), firstInt (getConn c "B"), firstInt (getConn c "Y"))

/-- The `cell_connections` / `cell_ab_y` map: cell name to its scalar
A/B/Y triple. -/
def buildConnMap (cells : CellsT) : List (String × (Option Nat × Option Nat × Option Nat)) :=
  cells.foldl (fun m p => updateA m p.1 (cellABYOf p.2)) []

/-- The `out_net_to_cell` map: output signal id to producing cell name
(a later cell with the same output overwrites an earlier one, as the
Python dict assignment does). -/
def buildOutNet (cells : CellsT) : List (Nat × String) :=
  cells.foldl
    (fun m p =>
      match (cellABYOf p.2).2.2 with
      | some y => updateA m y p.1
      | none => m)
    []

/-! ## Technology mapper (mapper.py) -/

/-- Yosys internal gate type to standard cell mapping (mapper.py
`YOSYS_GATE_MAP`). -/
def YOSYS_GATE_MAP : List (String × String) :=
  [("$_AND_", "AND2"),
   ("$_NAND_", "NAND2"),
   ("$_OR_", "OR2"),
   ("$_NOR_", "NOR2"),
   ("$_XOR_", "XOR2"),
   ("$_XNOR_", "XNOR2"),
   ("$_NOT_", "INV"),
   ("$_BUF_", "BUF"),
   ("$_ANDNOT_", "AND2"),
   ("$_ORNOT_", "OR2"),
   ("$_MUX_", "MUX2"),
   ("$_DFF_", "DFF"),
   ("$_DFFE_", "DFF"),
   ("$_DFF_N_", "DFF"),
   ("$_DFF_P_", "DFF"),
   ("$_DFFE_N_", "DFF"),
   ("$_DFFE_P_", "DFF"),
   ("$_DFFSR_", "DFFR"),
   ("$_DFFSRE_", "DFFR")]

/-- Generic gate to cell mapping (mapper.py `DEFAULT_GATE_MAP`). -/
def DEFAULT_GATE_MAP : List (String × String) :=
  [("NOT", "INV"),
   ("AND", "AND2"),
   ("NAND", "NAND2"),
   ("OR", "OR2"),
   ("NOR", "NOR2"),
   ("XOR", "XOR2"),
   ("XNOR", "XNOR2"),
   ("BUF", "BUF"),
   ("DFF", "DFF"),
   ("DFFR", "DFFR"),
   ("FA", "FA"),
   ("HA", "HA"),
   ("MUX2", "MUX2"),
   ("MUX4", "MUX4"),
   ("MUX8", "MUX8")]

/-- Python `str.upper()` on the ASCII cell names involved. -/
def pyUpper (s : String) : String :=
  ⟨s.data.map Char.toUpper⟩

/-- The case-insensitive fallback loop of `map_gate_to_cell`: the first
library cell whose upper-cased name equals the upper-cased gate type. -/
def findCaseInsensitive : List String → String → Option String
  | [], _ => none
  | c :: rest, gu => if pyUpper c = gu then some c else findCaseInsensitive rest gu

/-- mapper.py `map_gate_to_cell`: resolve a gate type to a library cell
name, `none` meaning not found. -/
def map_gate_to_cell (gate_type : String) (lib : CellLibrary) : Option String :=
  match lookupA YOSYS_GATE_MAP gate_type with
  | some mapped => if memL lib.cells mapped then some mapped else none
  | none =>
    if memL lib.cells gate_type then some gate_type
    else
      match lookupA DEFAULT_GATE_MAP gate_type with
      | some mapped =>
        if memL lib.cells mapped then some mapped
        else findCaseInsensitive lib.cells (pyUpper gate_type)
      | none => findCaseInsensitive lib.cells (pyUpper gate_type)

/-! ## Adder pattern detection (spice_generator.py `_detect_adder_patterns`)

The `module_data` argument of the Python function is unused by it, so the
embedding takes only the cells dict and the library.  The Python
`removed` set is a list used through membership, and the final
`rewritten_cells.pop` loop is the final filter. -/

/-- The HA cell inserted for a matched XOR/AND pair. -/
def mkHACell (a b sum carry : Nat) : Cell :=
  { type := "HA",
    connections :=
      [("A", [SigBit.id a]), ("B", [SigBit.id b]),
       ("SUM", [SigBit.id sum]), ("CARRY", [SigBit.id carry])],
    portDirections :=
      [("A", "input"), ("B", "input"), ("SUM", "output"), ("CARRY", "output")] }

/-- The FA cell inserted for a matched five- or seven-gate full adder. -/
def mkFACell (a b ci sum carry : Nat) : Cell :=
  { type := "FA",
    connections :=
      [("A", [SigBit.id a]), ("B", [SigBit.id b]), ("CI", [SigBit.id ci]),
       ("SUM", [SigBit.id sum]), ("CARRY", [SigBit.id carry])],
    portDirections :=
      [("A", "input"), ("B", "input"), ("CI", "input"),
       ("SUM", "output"), ("CARRY", "output")] }

/-- The inner loop of the half-adder match: the first AND gate, not yet
removed and distinct from the XOR, whose ordered input pair equals the
XOR's pair in either order.  Returns the AND's name and output net. -/
def findHAAnd (connMap : List (String × (Option Nat × Option Nat × Option Nat)))
    (removed : List String) (xn : String) (a b : Nat) :
    CellsT → Option (String × Nat)
  | [] => none
  | p :: rest =>
    if ¬ memL removed p.1 ∧ p.1 ≠ xn ∧ p.2.type = "$_AND_" then
      match lookupA connMap p.1 with
      | some (some ca, some cb, some cy) =>
        if (a = ca ∧ b = cb) ∨ (a = cb ∧ b = ca) then some (p.1, cy)
        else findHAAnd connMap removed xn a b rest
      | _ => findHAAnd connMap removed xn a b rest
    else findHAAnd connMap removed xn a b rest

/-- One iteration of the half-adder loop over a candidate XOR cell,
updating the (removed, rewritten) state. -/
def haStep (cells : CellsT)
    (connMap : List (String × (Option Nat × Option Nat × Option Nat)))
    (st : List String × CellsT) (p : String × Cell) : List String × CellsT :=
  if memL st.1 p.1 then st
  else if p.2.type ≠ "$_XOR_" then st
  else
    match lookupA connMap p.1 with
    | some (some a, some b, some y) =>
      match findHAAnd connMap st.1 p.1 a b cells with
      | some (an, cy) =>
        (an :: p.1 :: st.1, updateA st.2 ("HA_" ++ p.1) (mkHACell a b y cy))
      | none => st
    | _ => st

/-- Variant-1 AND search of the full-adder match: one pass over the cells
accumulating the first AND on the (A,B) pair and the first AND on the
(CI, xor1_y) pair, as the Python loop with its `continue` does. -/
def faAnds1 (connMap : List (String × (Option Nat × Option Nat × Option Nat)))
    (removed : List String) (x1 x2 : String) (a b ci x1y : Nat) :
    CellsT → (Option (String × Nat) × Option (String × Nat)) →
      Option (String × Nat) × Option (String × Nat)
  | [], acc => acc
  | p :: rest, (and1, and2) =>
    if memL removed p.1 ∨ p.1 = x1 ∨ p.1 = x2 then
      faAnds1 connMap removed x1 x2 a b ci x1y rest (and1, and2)
    else if p.2.type ≠ "$_AND_" then
      faAnds1 connMap removed x1 x2 a b ci x1y rest (and1, and2)
    else
      match lookupA connMap p.1 with
      | some (some ca, some cb, some cy) =>
        if and1 = none ∧ ((ca = a ∧ cb = b) ∨ (ca = b ∧ cb = a)) then
          faAnds1 connMap removed x1 x2 a b ci x1y rest (some (p.1, cy), and2)
        else if and2 = none ∧ ((ca = ci ∧ cb = x1y) ∨ (ca = x1y ∧ cb = ci)) then
          faAnds1 connMap removed x1 x2 a b ci x1y rest (and1, some (p.1, cy))
        else faAnds1 connMap removed x1 x2 a b ci x1y rest (and1, and2)
      | _ => faAnds1 connMap removed x1 x2 a b ci x1y rest (and1, and2)

/-- Variant-1 OR search: the first OR gate, outside the four matched
cells and not removed, combining the two AND outputs in either order. -/
def faFindOr1 (connMap : List (String × (Option Nat × Option Nat × Option Nat)))
    (removed : List String) (x1 x2 an1 an2 : String) (a1y a2y : Nat) :
    CellsT → Option (String × Nat)
  | [] => none
  | p :: rest =>
    if memL removed p.1 ∨ p.1 = x1 ∨ p.1 = x2 ∨ p.1 = an1 ∨ p.1 = an2 then
      faFindOr1 connMap removed x1 x2 an1 an2 a1y a2y rest
    else if p.2.type ≠ "$_OR_" then
      faFindOr1 connMap removed x1 x2 an1 an2 a1y a2y rest
    else
      match lookupA connMap p.1 with
      | some (some oa, some ob, some oy) =>
        if (oa = a1y ∧ ob = a2y) ∨ (oa = a2y ∧ ob = a1y) then some (p.1, oy)
        else faFindOr1 connMap removed x1 x2 an1 an2 a1y a2y rest
      | _ => faFindOr1 connMap removed x1 x2 an1 an2 a1y a2y rest

/-- Python two-element set equality \x7ba,b\x7d == \x7bc,d\x7d on signal ids. -/
def pairSetEq (a b c d : Nat) : Prop :=
  (a = c ∧ b = d) ∨ (a = d ∧ b = c)

instance (a b c d : Nat) : Decidable (pairSetEq a b c d) := by
  unfold pairSetEq; infer_instance

/-- Python three-element set equality \x7ba,b,c\x7d == \x7bd,e,f\x7d on signal ids. -/
def setEq3 (a b c d e f : Nat) : Prop :=
  (a = d ∨ a = e ∨ a = f) ∧ (b = d ∨ b = e ∨ b = f) ∧ (c = d ∨ c = e ∨ c = f) ∧
  (d = a ∨ d = b ∨ d = c) ∧ (e = a ∨ e = b ∨ e = c) ∧ (f = a ∨ f = b ∨ f = c)

instance (a b c d e f : Nat) : Decidable (setEq3 a b c d e f) := by
  unfold setEq3; infer_instance

/-- Variant-2 AND search: one pass over the cells accumulating the first
AND on each of the unordered pairs (A,B), (A,CI), (B,CI), following the
Python elif chain. -/
def faAnds2 (connMap : List (String × (Option Nat × Option Nat × Option Nat)))
    (removed : List String) (x1 x2 : String) (a b ci : Nat) :
    CellsT →
      (Option (String × Nat) × Option (String × Nat) × Option (String × Nat)) →
      Option (String × Nat) × Option (String × Nat) × Option (String × Nat)
  | [], acc => acc
  | p :: rest, (ab, aci, bci) =>
    if memL removed p.1 ∨ p.1 = x1 ∨ p.1 = x2 then
      faAnds2 connMap removed x1 x2 a b ci rest (ab, aci, bci)
    else if p.2.type ≠ "$_AND_" then
      faAnds2 connMap removed x1 x2 a b ci rest (ab, aci, bci)
    else
      match lookupA connMap p.1 with
      | some (some ca, some cb, some cy) =>
        if pairSetEq ca cb a b ∧ ab = none then
          faAnds2 connMap removed x1 x2 a b ci rest (some (p.1, cy), aci, bci)
        else if pairSetEq ca cb a ci ∧ aci = none then
          faAnds2 connMap removed x1 x2 a b ci rest (ab, some (p.1, cy), bci)
        else if pairSetEq ca cb b ci ∧ bci = none then
          faAnds2 connMap removed x1 x2 a b ci rest (ab, aci, some (p.1, cy))
        else faAnds2 connMap removed x1 x2 a b ci rest (ab, aci, bci)
      | _ => faAnds2 connMap removed x1 x2 a b ci rest (ab, aci, bci)

/-- The Python `or_candidates` list for variant 2. -/
def orCandidates (removed : List String) (cells : CellsT) : List String :=
  (cells.filter (fun p => p.2.type = "$_OR_" && ! memL removed p.1)).map (·.1)

/-- Variant-2 inner OR loop: for a fixed or1, find the first or2 forming
an OR3 tree with it whose leaves are exactly the three AND outputs.
Returns (root cell, inner cell, carry net). -/
def faOr2Inner (connMap : List (String × (Option Nat × Option Nat × Option Nat)))
    (removed : List String) (or1 : String) (o1a o1b o1y : Nat)
    (w1 w2 w3 : Nat) : List String → Option (String × String × Nat)
  | [] => none
  | or2 :: rest =>
    if or2 = or1 ∨ memL removed or2 then
      faOr2Inner connMap removed or1 o1a o1b o1y w1 w2 w3 rest
    else
      match lookupA connMap or2 with
      | some (some o2a, some o2b, some o2y) =>
        if o1y = o2a then
          if setEq3 o1a o1b o2b w1 w2 w3 then some (or2, or1, o2y)
          else faOr2Inner connMap removed or1 o1a o1b o1y w1 w2 w3 rest
        else if o1y = o2b then
          if setEq3 o1a o1b o2a w1 w2 w3 then some (or2, or1, o2y)
          else faOr2Inner connMap removed or1 o1a o1b o1y w1 w2 w3 rest
        else if o2y = o1a then
          if setEq3 o2a o2b o1b w1 w2 w3 then some (or1, or2, o1y)
          else faOr2Inner connMap removed or1 o1a o1b o1y w1 w2 w3 rest
        else if o2y = o1b then
          if setEq3 o2a o2b o1a w1 w2 w3 then some (or1, or2, o1y)
          else faOr2Inner connMap removed or1 o1a o1b o1y w1 w2 w3 rest
        else faOr2Inner connMap removed or1 o1a o1b o1y w1 w2 w3 rest
      | _ => faOr2Inner connMap removed or1 o1a o1b o1y w1 w2 w3 rest

/-- Variant-2 outer OR loop over or1 candidates. -/
def faOr2Outer (connMap : List (String × (Option Nat × Option Nat × Option Nat)))
    (removed : List String) (candidates : List String) (w1 w2 w3 : Nat) :
    List String → Option (String × String × Nat)
  | [] => none
  | or1 :: rest =>
    if memL removed or1 then faOr2Outer connMap removed candidates w1 w2 w3 rest
    else
      match lookupA connMap or1 with
      | some (some o1a, some o1b, some o1y) =>
        match faOr2Inner connMap removed or1 o1a o1b o1y w1 w2 w3 candidates with
        | some r => some r
        | none => faOr2Outer connMap removed candidates w1 w2 w3 rest
      | _ => faOr2Outer connMap removed candidates w1 w2 w3 rest

/-- Attempt the full-adder match for a fixed first XOR (x1 with inputs
a, b and output x1y) and one candidate second XOR p2.  On success,
returns the names to remove and the FA replacement cell. -/
def tryFA (cells : CellsT)
    (connMap : List (String × (Option Nat × Option Nat × Option Nat)))
    (removed : List String) (x1 : String) (a b x1y : Nat) (p2 : String × Cell) :
    Option (List String × Cell) :=
  if memL removed p2.1 ∨ p2.1 = x1 then none
  else if p2.2.type ≠ "$_XOR_" then none
  else
    match lookupA connMap p2.1 with
    | some (some x2a, some x2b, some x2y) =>
      let ci? : Option Nat :=
        if x2a = x1y then some x2b else if x2b = x1y then some x2a else none
      match ci? with
      | none => none
      | some ci =>
        let (and1, and2) := faAnds1 connMap removed x1 p2.1 a b ci x1y cells (none, none)
        let v1 : Option (List String × Cell) :=
          match and1, and2 with
          | some (an1, a1y), some (an2, a2y) =>
            match faFindOr1 connMap removed x1 p2.1 an1 an2 a1y a2y cells with
            | some (orn, ory) =>
              some ([x1, p2.1, an1, an2, orn], mkFACell a b ci x2y ory)
            | none => none
          | _, _ => none
        match v1 with
        | some r => some r
        | none =>
          match faAnds2 connMap removed x1 p2.1 a b ci cells (none, none, none) with
          | (some (nab, yab), some (naci, yaci), some (nbci, ybci)) =>
            let candidates := orCandidates removed cells
            match faOr2Outer connMap removed candidates yab yaci ybci candidates with
            | some (root, inner, carry) =>
              some ([x1, p2.1, nab, naci, nbci, root, inner],
                    mkFACell a b ci x2y carry)
            | none => none
          | _ => none
    | _ => none

/-- The first success of f over a list (the Python search loop with its
`break`). -/
def firstSome {α β : Type} (f : α → Option β) : List α → Option β
  | [] => none
  | x :: rest =>
    match f x with
    | some r => some r
    | none => firstSome f rest

/-- One iteration of the full-adder loop over a candidate first XOR cell. -/
def faStep (cells : CellsT)
    (connMap : List (String × (Option Nat × Option Nat × Option Nat)))
    (st : List String × CellsT) (p : String × Cell) : List String × CellsT :=
  if memL st.1 p.1 then st
  else if p.2.type ≠ "$_XOR_" then st
  else
    match lookupA connMap p.1 with
    | some (some a, some b, some y) =>
      match firstSome (tryFA cells connMap st.1 p.1 a b y) cells with
      | some (adds, cell) => (adds ++ st.1, updateA st.2 ("FA_" ++ p.1) cell)
      | none => st
    | _ => st

/-- spice_generator.py `_detect_adder_patterns`: detect and replace
gate-level HA/FA patterns.  Its `module_data` argument is unused by the
Python code and omitted here. -/
def _detect_adder_patterns (cells : CellsT) (lib : CellLibrary) : CellsT :=
  let has_ha := memL lib.cells "HA"
  let has_fa := memL lib.cells "FA"
  if has_ha = false ∧ has_fa = false then cells
  else
    let connMap := buildConnMap cells
    let st0 : List String × CellsT := ([], cells)
    let st1 := if has_ha then cells.foldl (haStep cells connMap) st0 else st0
    let st2 := if has_fa then cells.foldl (faStep cells connMap) st1 else st1
    st2.2.filter (fun p => ! memL st2.1 p.1)


/-! ## Associative gate-chain collapsing
(spice_generator.py `_collapse_associative_gate_chains`) -/

/-- spice_generator.py `_ASSOCIATIVE_2INPUT_TYPES`: Yosys internal name
to base cell name, as the table literally stands in the source. -/
def _ASSOCIATIVE_2INPUT_TYPES : List (String × String) :=
  [("$_AND_", "AND"),
   ("$_OR_", "OR"),
   ("$_NAND_", "NAND"),
   ("$_NOR_", "NOR"),
   ("$_XOR_", "XOR"),
   ("$_XNOR_", "XNOR")]

/-- The integer signal ids of a bit list. -/
def intBits (bits : List SigBit) : List Nat :=
  bits.filterMap (fun b => match b with | SigBit.id n => some n | SigBit.const _ => none)

/-- The module's output-port bits, collected from ports whose direction
is "output". -/
def outputPortBits (md : ModuleData) : List Nat :=
  md.ports.foldl
    (fun acc p => if p.2.direction = "output" then acc ++ intBits p.2.bits else acc)
    []

/-- Increment the fanout count of a net, when present. -/
def bumpFanout (m : List (Nat × Nat)) (net : Option Nat) : List (Nat × Nat) :=
  match net with
  | none => m
  | some n => updateA m n (lookupD m n 0 + 1)

/-- The fanout map: uses of each net as a scalar A or B input, exactly as
the source counts (other pins are ignored by the source). -/
def buildFanout (cells : CellsT) : List (Nat × Nat) :=
  cells.foldl
    (fun m p =>
      let aby := cellABYOf p.2
      bumpFanout (bumpFanout m aby.1) aby.2.1)
    []

/-- spice_generator.py `_collect_leaf_inputs`: depth-first expansion of a
net into leaf inputs.  The Python recursion terminates because `visited`
grows; the embedding carries fuel, which the pass supplies in excess. -/
def collectLeafInputs (maxArity : Nat) (outNet : List (Nat × String))
    (rewritten : CellsT)
    (connMap : List (String × (Option Nat × Option Nat × Option Nat)))
    (outBits : List Nat) (fanout : List (Nat × Nat)) (removed : List String)
    (cellName gateType : String) :
    Nat → Nat → List String → List Nat → List String × List Nat
  | 0, net, visited, leaves => (visited, leaves ++ [net])
  | fuel + 1, net, visited, leaves =>
    if leaves.length ≥ maxArity then (visited, leaves ++ [net])
    else
      match lookupA outNet net with
      | none => (visited, leaves ++ [net])
      | some producer =>
        if producer = cellName then (visited, leaves ++ [net])
        else if memL visited producer ∨ memL removed producer then (visited, leaves ++ [net])
        else
          match lookupA rewritten producer with
          | none => (visited, leaves ++ [net])
          | some pInfo =>
            if pInfo.type ≠ gateType then (visited, leaves ++ [net])
            else if memL outBits net then (visited, leaves ++ [net])
            else if lookupD fanout net 0 ≠ 1 then (visited, leaves ++ [net])
            else
              match lookupA connMap producer with
              | some (some pa, some pb, some py) =>
                if py ≠ net then (visited, leaves ++ [net])
                else
                  let r1 := collectLeafInputs maxArity outNet rewritten connMap
                    outBits fanout removed cellName gateType fuel pa
                    (producer :: visited) leaves
                  collectLeafInputs maxArity outNet rewritten connMap
                    outBits fanout removed cellName gateType fuel pb r1.1 r1.2
              | _ => (visited, leaves ++ [net])

/-- Order-preserving deduplication of the leaf list. -/
def dedupAux (seen : List Nat) : List Nat → List Nat
  | [] => []
  | n :: rest => if memL seen n then dedupAux seen rest else n :: dedupAux (n :: seen) rest

/-- Remove duplicate leaves while preserving discovery order. -/
def dedupNats (l : List Nat) : List Nat :=
  dedupAux [] l

/-- The connections of the rewritten wide gate: pins A, B, C, ... bound to
the deduplicated leaves in order, then pin Y kept. -/
def widePins (deduped : List Nat) (y : Nat) : List (String × List SigBit) :=
  (deduped.enum.map
    (fun p => (String.singleton (Char.ofNat (65 + p.1)), [SigBit.id p.2]))) ++
  [("Y", [SigBit.id y])]

/-- One iteration of the collapsing loop over a snapshot cell entry,
updating the (removed, rewritten) state. -/
def collapseStep (cells : CellsT) (maxArity : Nat) (lib : CellLibrary)
    (outNet : List (Nat × String))
    (connMap : List (String × (Option Nat × Option Nat × Option Nat)))
    (outBits : List Nat) (fanout : List (Nat × Nat))
    (st : List String × CellsT) (p : String × Cell) : List String × CellsT :=
  if memL st.1 p.1 then st
  else
    match lookupA _ASSOCIATIVE_2INPUT_TYPES p.2.type with
    | none => st
    | some base =>
      match lookupA connMap p.1 with
      | some (some a, some b, some y) =>
        let r1 := collectLeafInputs maxArity outNet st.2 connMap outBits fanout
          st.1 p.1 p.2.type (cells.length + 2) a [] []
        let r2 := collectLeafInputs maxArity outNet st.2 connMap outBits fanout
          st.1 p.1 p.2.type (cells.length + 2) b r1.1 r1.2
        let deduped := dedupNats r2.2
        if deduped.length ≤ 2 then st
        else if deduped.length > maxArity then st
        else
          let target := base ++ Nat.repr deduped.length
          if ¬ memL lib.cells target then st
          else
            let newCell : Cell :=
              { p.2 with type := target, connections := widePins deduped y }
            (r2.1 ++ st.1, updateA st.2 p.1 newCell)
      | _ => st

/-- The library-availability quick check for N-input gates. -/
def hasAnyMulti (lib : CellLibrary) (maxArity : Nat) : Bool :=
  (["AND", "OR", "NAND", "NOR", "XOR", "XNOR"].any fun base =>
    (List.range' 3 (maxArity - 2)).any fun n => memL lib.cells (base ++ Nat.repr n))

/-- spice_generator.py `_collapse_associative_gate_chains`: collapse
cascades of 2-input gates of a type listed in the associativity table
into N-input gates, subject to the guards of the source.  `maxArity` is
the Python keyword argument `max_arity` (default 4). -/
def _collapse_associative_gate_chains (md : ModuleData) (cells : CellsT)
    (lib : CellLibrary) (maxArity : Nat) : CellsT :=
  if maxArity < 3 then cells
  else if ¬ hasAnyMulti lib maxArity then cells
  else
    let outBits := outputPortBits md
    let fanout := buildFanout cells
    let connMap := buildConnMap cells
    let outNet := buildOutNet cells
    if ¬ cells.any (fun p => (lookupA _ASSOCIATIVE_2INPUT_TYPES p.2.type).isSome) then cells
    else
      let st := cells.foldl
        (collapseStep cells maxArity lib outNet connMap outBits fanout) ([], cells)
      st.2.filter (fun p => ! memL st.1 p.1)

/-- Both rewrite passes in the order `generate_module_instances` runs
them: adder detection first, then chain collapsing with the default
maximum arity 4. -/
def rewritePasses (md : ModuleData) (cells : CellsT) (lib : CellLibrary) : CellsT :=
  _collapse_associative_gate_chains md (_detect_adder_patterns cells lib) lib 4

/-! ## The producer/port invariant of the specification (claim C1)

The following definitions formalise the spec sentence: every signal id
referenced by a surviving cell's pins is produced by exactly one
surviving cell or is a module port net.  Power/ground globals have no
integer signal id in this IR (constant bits are `SigBit.const`), so the
port/global clause reduces to module port bits here. -/

/-- A cell produces net n when n appears on one of its pins whose
declared direction is "output". -/
def producesNet (c : Cell) (n : Nat) : Bool :=
  c.connections.any fun pc =>
    decide (lookupA c.portDirections pc.1 = some "output") && memL (intBits pc.2) n

/-- The number of cells of the module producing net n. -/
def producerCount (cells : CellsT) (n : Nat) : Nat :=
  (cells.filter (fun p => producesNet p.2 n)).length

/-- All integer signal ids referenced by any pin of a cell. -/
def referencedIds (c : Cell) : List Nat :=
  c.connections.foldl (fun acc pc => acc ++ intBits pc.2) []

/-- All port bits of the module, inputs and outputs alike. -/
def allPortBits (md : ModuleData) : List Nat :=
  md.ports.foldl (fun acc p => acc ++ intBits p.2.bits) []

/-- The C1 invariant: every referenced id is a module port bit or is
produced by exactly one cell. -/
def invariantHolds (md : ModuleData) (cells : CellsT) : Bool :=
  cells.all fun p =>
    (referencedIds p.2).all fun n =>
      memL (allPortBits md) n || decide (producerCount cells n = 1)

/-! ## String helpers with Python semantics

Implemented over the character list so that their behaviour is fully
transparent to proofs; they model Python `str.strip()`, `str.split()`
and `str.join` on the ASCII SPICE text involved. -/

/-- Python `str.strip()`: drop leading and trailing whitespace. -/
def pystrip (s : String) : String :=
  ⟨((s.data.dropWhile Char.isWhitespace).reverse.dropWhile Char.isWhitespace).reverse⟩

/-- Greedily take the leading non-whitespace run. -/
def takeWord : List Char → List Char
  | [] => []
  | c :: cs => if c.isWhitespace then [] else c :: takeWord cs

/-- Drop the leading non-whitespace run. -/
def dropWord : List Char → List Char
  | [] => []
  | c :: cs => if c.isWhitespace then c :: cs else dropWord cs

/-- Drop leading whitespace. -/
def dropWS : List Char → List Char
  | [] => []
  | c :: cs => if c.isWhitespace then dropWS cs else c :: cs

/-- Whitespace-separated words with fuel (Python `str.split()` without
arguments): maximal non-whitespace runs, no empty words. -/
def wordsF : Nat → List Char → List (List Char)
  | 0, _ => []
  | fuel + 1, l =>
    match dropWS l with
    | [] => []
    | c :: cs => (c :: takeWord cs) :: wordsF fuel (dropWord cs)

/-- Python `s.split()`. -/
def pysplit (s : String) : List String :=
  (wordsF (s.data.length + 1) s.data).map (fun l => ⟨l⟩)

/-- Python `sep.join(parts)`. -/
def pyjoin (sep : String) : List String → String
  | [] => ""
  | [x] => x
  | x :: rest => x ++ sep ++ pyjoin sep rest

/-- The upper-cased head character of a nonempty string, the Python
`s[0].upper()` (a blank for the impossible empty case). -/
def headUpperD (s : String) : Char :=
  match s.data with
  | [] => ' '
  | c :: _ => c.toUpper

/-- Drop the first character of a string (Python `s[1:]`). -/
def strDrop1 (s : String) : String :=
  match s.data with
  | [] => ""
  | _ :: cs => ⟨cs⟩

/-! ## SPICE instance-line parsing and subcircuit lowering
(spice_parser.py / spice_generator.py) -/

/-- spice_parser.py `SubcircuitDefinition`: the fields read during
lowering (the raw `lines` field is never consulted there). -/
structure SubcircuitDefinition where
  name : String
  ports : List String
  instances : List String
deriving DecidableEq

/-- The token analysis of `parse_instance_line` on the whitespace-split
parts of the stripped line. -/
def parseParts (parts : List String) : Option (String × List String × String × List String) :=
  if parts.length < 2 then none
  else
    match parts with
    | [] => none
    | p0 :: rest =>
      match p0.data with
      | [] => none
      | c0 :: _ =>
        if c0 ≠ 'X' ∧ c0 ≠ 'M' ∧ c0 ≠ 'x' ∧ c0 ≠ 'm' then none
        else if c0.toUpper = 'M' then
          if parts.length < 6 then none
          else some (p0, rest.take 4, lookupD parts.enum 5 "", parts.drop 6)
        else some (p0, rest.dropLast, (parts.getLast?).getD "", [])

/-- spice_generator.py `parse_instance_line`: split a SPICE instance line
into (instance name, net connections, cell/model type, parameters). -/
def parse_instance_line (s : String) : Option (String × List String × String × List String) :=
  match (pystrip s).data with
  | [] => none
  | c :: _ =>
    if c = '*' then none
    else parseParts (pysplit (pystrip s))

/-- The port map of an expansion: formal port names to actual connected
nets in order, unconnected trailing formals bound to "NC". -/
def buildPortMap : List String → List String → List (String × String) → List (String × String)
  | [], _, acc => acc
  | p :: ps, [], acc => buildPortMap ps [] (updateA acc p "NC")
  | p :: ps, c :: cs, acc => buildPortMap ps cs (updateA acc p c)

/-- The unique internal-net name built from a counter key and its count,
the Python f-string `f"\x7bkey\x7d_\x7bcounter\x7d"`. -/
def mkName (key : String) (c : Nat) : String :=
  key ++ "_" ++ Nat.repr c

/-- spice_generator.py `get_net_name` (local to
`expand_instance_to_transistors`): resolve a body net to a global net
name, threading the internal-net map and the shared counter. -/
def getNetName (portMap : List (String × String)) (pfx iname : String)
    (imap : List (String × String)) (σ : List (String × Nat)) (net : String) :
    String × List (String × String) × List (String × Nat) :=
  match lookupA portMap net with
  | some conn => (conn, imap, σ)
  | none =>
    if net = "VDD" ∨ net = "VSS" ∨ net = "0" then (net, imap, σ)
    else
      match lookupA imap net with
      | some u => (u, imap, σ)
      | none =>
        let key := pfx ++ iname ++ "_" ++ net
        let c := lookupD σ key 0
        let u :=
          if pfx ≠ "" then pfx ++ iname ++ "_" ++ net ++ "_" ++ Nat.repr c
          else iname ++ "_" ++ net ++ "_" ++ Nat.repr c
        (u, updateA imap net u, updateA σ key (c + 1))

/-- Map a list of body nets through `getNetName`, threading the state. -/
def mapNets (portMap : List (String × String)) (pfx iname : String)
    (imap : List (String × String)) (σ : List (String × Nat)) :
    List String → List String × List (String × String) × List (String × Nat)
  | [] => ([], imap, σ)
  | n :: rest =>
    let r := getNetName portMap pfx iname imap σ n
    let rr := mapNets portMap pfx iname r.2.1 r.2.2 rest
    (r.1 :: rr.1, rr.2.1, rr.2.2)

/-- The body loop of `expand_instance_to_transistors`, parameterised by
the recursive expansion of nested subcircuit calls.  Returns the
expanded lines, the final internal-net map (the local
`internal_net_map` of the source, exposed for specification), and the
final shared counter. -/
def expandBody (recur : String → List (String × Nat) → String → List String × List (String × Nat))
    (pfx iname : String) (portMap : List (String × String)) :
    List String → List (String × String) → List (String × Nat) →
      List String × List (String × String) × List (String × Nat)
  | [], imap, σ => ([], imap, σ)
  | l :: rest, imap, σ =>
    let ls := pystrip l
    if ls.data = [] ∨ ls.data.head? = some '*' then
      expandBody recur pfx iname portMap rest imap σ
    else
      match parse_instance_line ls with
      | none => expandBody recur pfx iname portMap rest imap σ
      | some (mname, mnets, mtype, mparams) =>
        let r := mapNets portMap pfx iname imap σ mnets
        let mapped := r.1
        let imap1 := r.2.1
        let σ1 := r.2.2
        let nameToUse :=
          if headUpperD mname = 'M' ∧ headUpperD iname = 'X' then
            if mname.length > 1 then "X" ++ strDrop1 mname else mname
          else mname
        let newName :=
          if pfx ≠ "" then pfx ++ iname ++ "_" ++ nameToUse
          else iname ++ "_" ++ nameToUse
        if headUpperD mname = 'M' then
          let lineOut := newName ++ " " ++ pyjoin " " mapped ++ " " ++ mtype ++
            (if mparams ≠ [] then " " ++ pyjoin " " mparams else "")
          let rr := expandBody recur pfx iname portMap rest imap1 σ1
          (lineOut :: rr.1, rr.2.1, rr.2.2)
        else if headUpperD mname = 'X' then
          let nested := newName ++ " " ++ pyjoin " " mapped ++ " " ++ mtype
          let cleanName := if headUpperD iname = 'X' then iname else iname
          let nestedPfx :=
            if pfx ≠ "" then pfx ++ cleanName ++ "_" else cleanName ++ "_"
          let nr := recur nested σ1 nestedPfx
          let rr := expandBody recur pfx iname portMap rest imap1 nr.2
          (nr.1 ++ rr.1, rr.2.1, rr.2.2)
        else
          let lineOut := newName ++ " " ++ pyjoin " " mapped ++ " " ++ mtype ++
            (if mparams ≠ [] then " " ++ pyjoin " " mparams else "")
          let rr := expandBody recur pfx iname portMap rest imap1 σ1
          (lineOut :: rr.1, rr.2.1, rr.2.2)

/-- spice_generator.py `expand_instance_to_transistors`, with fuel for
the nested-subcircuit recursion.  Returns the expanded lines, the final
counter, and (extra, for specification) the top-level internal-net map
of this call. -/
def expand_instance_to_transistors :
    Nat → String → List (String × SubcircuitDefinition) →
      List (String × Nat) → String →
      List String × List (String × Nat) × List (String × String)
  | 0, line, _, σ, _ => ([line], σ, [])
  | fuel + 1, line, defs, σ, pfx =>
    match parse_instance_line line with
    | none => ([line], σ, [])
    | some (iname, conns, ctype, _params) =>
      if headUpperD iname = 'M' then ([line], σ, [])
      else
        match lookupA defs ctype with
        | none => ([line], σ, [])
        | some subckt =>
          let portMap := buildPortMap subckt.ports conns []
          let r := expandBody
            (fun l σ2 p =>
              let t := expand_instance_to_transistors fuel l defs σ2 p
              (t.1, t.2.1))
            pfx iname portMap subckt.instances [] σ
          (r.1, r.2.2, r.2.1)

/-- spice_generator.py `expand_to_transistor_level` after the subcircuit
definitions are loaded: expand each instance line in order with the one
shared net-name counter. -/
def expandInstanceList (fuel : Nat) (defs : List (String × SubcircuitDefinition)) :
    List String → List (String × Nat) → List String × List (String × Nat)
  | [], σ => ([], σ)
  | l :: rest, σ =>
    let r := expand_instance_to_transistors fuel l defs σ ""
    let rr := expandInstanceList fuel defs rest r.2.1
    (r.1 ++ rr.1, rr.2)

/-! ## Top-module resolution (parser.py `get_top_module`) -/

/-- parser.py `ModuleInfo`, restricted to the fields `get_top_module`
reads: the name and the cell type tags of each cell entry. -/
structure ModuleInfo where
  name : String
  cellTypes : List String
deriving DecidableEq

/-- Python `name.lstrip("\\")`: strip every leading backslash. -/
def lstripBackslashes (s : String) : String :=
  ⟨s.data.dropWhile (fun c => c = '\\')⟩

/-- The first module whose name, stripped of all leading backslashes,
equals the requested top name. -/
def findStripped : List (String × ModuleInfo) → String → Option ModuleInfo
  | [], _ => none
  | p :: rest, t =>
    if lstripBackslashes p.1 = t then some p.2 else findStripped rest t

/-- All cell type tags used anywhere in the design (the Python
`used_modules` set, which scans every module including the candidate
itself). -/
def usedModules (modules : List (String × ModuleInfo)) : List String :=
  modules.foldl (fun acc p => acc ++ p.2.cellTypes) []

/-- The auto-detection branch of `get_top_module` when no explicit name
is usable. -/
def autoDetectTop (modules : List (String × ModuleInfo)) : Option ModuleInfo :=
  if modules.length = 1 then (modules.head?).map (·.2)
  else
    let used := usedModules modules
    let candidates := modules.filter
      (fun p => ! memL used p.1 && ! memL used (lstripBackslashes p.1))
    match candidates.head? with
    | some p => some p.2
    | none =>
      match modules.head? with
      | some p => some p.2
      | none => none

/-- parser.py `get_top_module`.  The `ValueError` raises become `none`;
an empty explicit name is falsy in Python and routes to auto-detection. -/
def get_top_module (modules : List (String × ModuleInfo)) (topName : Option String) :
    Option ModuleInfo :=
  match topName with
  | some t =>
    if t = "" then autoDetectTop modules
    else
      match lookupA modules t with
      | some m => some m
      | none =>
        match lookupA modules ("\\" ++ t) with
        | some m => some m
        | none => findStripped modules t
  | none => autoDetectTop modules

/-- Modelled from the claim wording of C8: with an explicit name, the
match is found by exact name, by adding a single leading escape marker,
or by stripping a single leading escape marker from a module name. -/
def stripOneMarker (s : String) : String :=
  match s.data with
  | '\\' :: rest => ⟨rest⟩
  | _ => s

/-- Modelled from the claim wording of C8 (original form): the explicit
top-name resolution using a single added or stripped escape marker. -/
def claimExplicitTop (modules : List (String × ModuleInfo)) (t : String) :
    Option ModuleInfo :=
  match lookupA modules t with
  | some m => some m
  | none =>
    match lookupA modules ("\\" ++ t) with
    | some m => some m
    | none =>
      match modules.find? (fun p => stripOneMarker p.1 = t) with
      | some p => some p.2
      | none => none

/-- Modelled from the amended claim wording of C8: exact match, then the
name with one escape marker added, then the first module whose name with
ALL leading escape markers stripped equals the requested name; with no
(or an empty) requested name, the sole module, else the first module
whose name neither exactly nor fully-stripped occurs among any module's
cell types (its own included), else the first module; failure only on an
empty design or an unmatched explicit name. -/
def specTopResolution (modules : List (String × ModuleInfo)) (topName : Option String) :
    Option ModuleInfo :=
  let noName :=
    if modules.length = 1 then (modules.head?).map (·.2)
    else
      let used := usedModules modules
      match (modules.filter
        (fun p => ! memL used p.1 && ! memL used (lstripBackslashes p.1))).head? with
      | some p => some p.2
      | none =>
        match modules.head? with
        | some p => some p.2
        | none => none
  match topName with
  | some t =>
    if t = "" then noName
    else
      match lookupA modules t with
      | some m => some m
      | none =>
        match lookupA modules ("\\" ++ t) with
        | some m => some m
        | none => findStripped modules t
  | none => noName

/-! ## Concrete fixtures used by the claim theorems -/

/-- A 2-input gate cell with scalar A/B/Y connections. -/
def mkGate (t : String) (a b y : Nat) : Cell :=
  { type := t,
    connections := [("A", [SigBit.id a]), ("B", [SigBit.id b]), ("Y", [SigBit.id y])],
    portDirections := [("A", "input"), ("B", "input"), ("Y", "output")] }

/-- C1 failing input, module data: inputs on nets 1, 2, 3 and outputs on
nets 6, 7; net 5 is internal. -/
def c1Md : ModuleData :=
  { ports :=
      [("a", { direction := "input", bits := [SigBit.id 1] }),
       ("b", { direction := "input", bits := [SigBit.id 2] }),
       ("c", { direction := "input", bits := [SigBit.id 3] }),
       ("y", { direction := "output", bits := [SigBit.id 6] }),
       ("z", { direction := "output", bits := [SigBit.id 7] })] }

/-- C1 failing input, cells: an AND chain g1, g2 through net 5, and a
cell m that also consumes net 5 on a pin named S (not A or B). -/
def c1Cells : CellsT :=
  [("g1", mkGate "$_AND_" 1 2 5),
   ("g2", mkGate "$_AND_" 5 3 6),
   ("m",
    { type := "FOO",
      connections := [("S", [SigBit.id 5]), ("Y", [SigBit.id 7])],
      portDirections := [("S", "input"), ("Y", "output")] })]

/-- C1 failing input, library: AND3 present, no HA/FA. -/
def c1Lib : CellLibrary := { cells := ["AND3"] }

/-- C2 failing input, module data: only net 5 is an output port. -/
def c2Md : ModuleData :=
  { ports := [("y", { direction := "output", bits := [SigBit.id 5] })] }

/-- C2 failing input, cells: a chain of two internal XOR gates. -/
def c2Cells : CellsT :=
  [("x1", mkGate "$_XOR_" 1 2 4),
   ("x2", mkGate "$_XOR_" 4 3 5)]

/-- C2 failing input, library: XOR3 present. -/
def c2Lib : CellLibrary := { cells := ["XOR3"] }

/-- Fanout as the claim defines it: the count of cell input pins
consuming the net (every pin whose declared direction is input, not only
the scalar A and B pins that the pass counts). -/
def inputPinFanout (cells : CellsT) (n : Nat) : Nat :=
  cells.foldl
    (fun acc p => acc +
      (p.2.connections.filter (fun pc =>
        decide (lookupA p.2.portDirections pc.1 = some "input") &&
          memL (intBits pc.2) n)).length)
    0

/-- C3 failing input, module data: inputs on nets 1, 2, 3 and outputs on
nets 6, 7; net 5 is internal. -/
def c3xMd : ModuleData :=
  { ports :=
      [("a", { direction := "input", bits := [SigBit.id 1] }),
       ("b", { direction := "input", bits := [SigBit.id 2] }),
       ("c", { direction := "input", bits := [SigBit.id 3] }),
       ("y", { direction := "output", bits := [SigBit.id 6] }),
       ("z", { direction := "output", bits := [SigBit.id 7] })] }

/-- C3 failing input, cells: net 5 is consumed by two cell input pins,
g2.A and m.S, so its fanout in the claim's sense is two. -/
def c3xCells : CellsT :=
  [("g1", mkGate "$_AND_" 1 2 5),
   ("g2", mkGate "$_AND_" 5 3 6),
   ("m",
    { type := "FOO",
      connections := [("S", [SigBit.id 5]), ("Y", [SigBit.id 7])],
      portDirections := [("S", "input"), ("Y", "output")] })]

/-- C3 failing input, library: AND3 present. -/
def c3xLib : CellLibrary := { cells := ["AND3"] }

/-- C4 counterexample: two XOR cells on the same input pair \x7b1,2\x7d and a
single AND cell on that pair. -/
def c4Cells : CellsT :=
  [("x1", mkGate "$_XOR_" 1 2 4),
   ("x2", mkGate "$_XOR_" 1 2 5),
   ("c1", mkGate "$_AND_" 1 2 6)]

/-- C4 counterexample library: HA available, FA not. -/
def c4Lib : CellLibrary := { cells := ["HA"] }

/-- C4 amended-claim witness: one XOR and one AND on the unordered pair
\x7b1,2\x7d (the AND with its operands swapped). -/
def c4wCells : CellsT :=
  [("x", mkGate "$_XOR_" 1 2 4),
   ("c", mkGate "$_AND_" 2 1 6)]

/-- C4 amended-claim witness library: both HA and FA available. -/
def c4wLib : CellLibrary := { cells := ["HA", "FA"] }

/-- C5 witness: a two-gate AND chain (g1 feeds g2 through net 5). -/
def c5Cells : CellsT :=
  [("g1", mkGate "$_AND_" 1 2 5),
   ("g2", mkGate "$_AND_" 5 3 6)]

/-- C5 witness library. -/
def c5Lib : CellLibrary := { cells := ["AND3"] }

/-- C5 witness module data: net 6 is the only output port. -/
def c5Md : ModuleData :=
  { ports := [("y", { direction := "output", bits := [SigBit.id 6] })] }

/-- C6 witness library. -/
def c6Lib : CellLibrary := { cells := ["AND2", "INV"] }

/-- C7 witness: an inverter-like subcircuit with one internal net "mid". -/
def c7Defs : List (String × SubcircuitDefinition) :=
  [("INV",
    { name := "INV",
      ports := ["A", "Y"],
      instances := ["M1 mid A VSS VSS NMOS", "M2 Y mid VDD VDD PMOS"] })]

/-- C8 counterexample module: a name carrying two leading escape
markers. -/
def c8M : ModuleInfo := { name := "\\\\top", cellTypes := [] }

/-- C8 counterexample design. -/
def c8Mods : List (String × ModuleInfo) := [("\\\\top", c8M)]

/-- C10 counterexample: a subcircuit whose body transistor is named by
the bare letter M. -/
def c10Defs : List (String × SubcircuitDefinition) :=
  [("INV",
    { name := "INV",
      ports := ["A"],
      instances := ["M D G S B NMOS"] })]

/-- C10 amended-claim witness subcircuit. -/
def c10wDefs : List (String × SubcircuitDefinition) :=
  [("BUF",
    { name := "BUF",
      ports := ["A", "Y"],
      instances := ["M1 mid A VSS VSS NMOS"] })]

/-! ## Counter bookkeeping for the lowering uniqueness proof -/

/-- The count of a key in the shared net-name counter. -/
def cnt (σ : List (String × Nat)) (k : String) : Nat :=
  lookupD σ k 0

/-- Pointwise order between counter states: counts never decrease. -/
def cLE (σ σ' : List (String × Nat)) : Prop :=
  ∀ k, cnt σ k ≤ cnt σ' k

/-- A generated name lies in the counter window (σ, σ'): it decomposes
as key and count, with the count taken from inside the window. -/
def InRange (σ σ' : List (String × Nat)) (name : String) : Prop :=
  ∃ k c, name = mkName k c ∧ cnt σ k ≤ c ∧ c < cnt σ' k

/-- Decimal decoding of a digit-character list. -/
def decodeDigits (l : List Char) : Nat :=
  l.foldl (fun a c => 10 * a + (c.toNat - 48)) 0

/-! ## Theorems -/

/-- C1: the specification invariant (every signal id referenced by a
surviving cell's pins is produced by exactly one surviving cell, or is a
module port net, or a power/ground global) is claimed to hold after the
adder-detection and chain-collapsing passes both run.  The code violates
it: the collapsing pass counts fanout only over pins named A and B, so
net 5, consumed by g2.A and by m.S, is treated as single-fanout; its
producer g1 is inlined and removed, leaving m's S pin referencing net 5
with no surviving producer, although the invariant held on the input. -/
theorem C1_code_divergence :
    invariantHolds c1Md c1Cells = true ∧
    invariantHolds c1Md (rewritePasses c1Md c1Cells c1Lib) = false := by
  constructor <;> decide

/-- C2: the claim (and the function's own docstring) says the collapsing
pass touches only the four internal primitives AND, OR, NAND, NOR.  The
table `_ASSOCIATIVE_2INPUT_TYPES` in the code also lists XOR and XNOR,
and on a two-XOR chain with XOR3 in the library the pass removes the
inner XOR cell x1 and rewrites x2 into an XOR3. -/
theorem C2_code_divergence :
    lookupA (_collapse_associative_gate_chains c2Md c2Cells c2Lib 4) "x1" = none ∧
    (lookupA (_collapse_associative_gate_chains c2Md c2Cells c2Lib 4) "x2").map
      Cell.type = some "XOR3" := by
  constructor <;> decide

/-- C4 counterexample: x2 (XOR on nets 1,2) and c1 (AND on nets 1,2)
consume the same unordered input pair, so the claim requires the pass to
remove both and insert an HA whose SUM is x2's output.  The code matches
x1 with c1 first and never reuses c1; x2 survives untouched and no HA
with SUM net 5 exists in the result. -/
theorem C4_counterexample :
    lookupA c4Cells "x2" = some (mkGate "$_XOR_" 1 2 5) ∧
    lookupA c4Cells "c1" = some (mkGate "$_AND_" 1 2 6) ∧
    _detect_adder_patterns c4Cells c4Lib =
      [("x2", mkGate "$_XOR_" 1 2 5), ("HA_x1", mkHACell 1 2 4 6)] := by
  refine ⟨by decide, by decide, by decide⟩

/-- C8 counterexample: for a module whose stored name carries two
leading escape markers, the claimed resolution (exact match, or a single
added or stripped marker) finds nothing for the request "top", yet the
code, which strips ALL leading markers, returns the module instead of
failing. -/
theorem C8_counterexample :
    claimExplicitTop c8Mods "top" = none ∧
    get_top_module c8Mods (some "top") = some c8M := by
  constructor <;> decide

/-- C10 counterexample: a body transistor whose entire name is the bare
letter M is kept as M (the code replaces the leading M by X only when at
least one character follows), so the emitted line starts with
"Xi_M ...", not with the claimed "Xi_X ...". -/
theorem C10_counterexample :
    (expand_instance_to_transistors 2 "Xi a INV" c10Defs [] "").1 =
      ["Xi_M Xi_D_0 Xi_G_0 Xi_S_0 Xi_B_0 NMOS"] ∧
    ("Xi_M Xi_D_0 Xi_G_0 Xi_S_0 Xi_B_0 NMOS").data.take 5 ≠ ("Xi_X ").data := by
  constructor <;> decide

/-- C6: when the gate type is a key of the fixed internal-primitive
table, `map_gate_to_cell` returns the table's recommendation exactly when
it is in the library and not-found otherwise, never consulting the
direct-match, generic-table, or case-insensitive rules. -/
theorem C6_yosys_table_precedence (g : String) (lib : CellLibrary) (m : String)
    (h : lookupA YOSYS_GATE_MAP g = some m) :
    map_gate_to_cell g lib = if memL lib.cells m then some m else none := by
  unfold map_gate_to_cell
  rw [h]

/-- C6 witness: the internal AND primitive maps through the table on a
concrete library. -/
theorem C6_yosys_table_precedence_witness :
    lookupA YOSYS_GATE_MAP "$_AND_" = some "AND2" ∧
    map_gate_to_cell "$_AND_" c6Lib =
      if memL c6Lib.cells "AND2" then some "AND2" else none :=
  ⟨by decide, C6_yosys_table_precedence "$_AND_" c6Lib "AND2" (by decide)⟩

/-- C3: the claim defines a net's fanout as the count of cell input pins
consuming it and says leaf collection never recurses through a net whose
fanout differs from exactly one, keeping the net as a leaf and its
producer un-removed.  Net 5 is consumed by two input pins (g2.A and
m.S), yet the code counts fanout only over pins named A and B, records
fanout one for net 5, recurses through it — collecting producer g1 into
the visited set and returning leaves 1, 2 instead of keeping net 5 as a
leaf — and the pass then removes g1. -/
theorem C3_code_divergence :
    inputPinFanout c3xCells 5 = 2 ∧
    collectLeafInputs 4 (buildOutNet c3xCells) c3xCells (buildConnMap c3xCells)
      (outputPortBits c3xMd) (buildFanout c3xCells) [] "g2" "$_AND_" 5 5 [] [] =
      (["g1"], [1, 2]) ∧
    lookupA (_collapse_associative_gate_chains c3xMd c3xCells c3xLib 4) "g1" =
      none := by
  refine ⟨by decide, by decide, by decide⟩

/-- C5: one candidate of the collapsing loop, after both leaf
collections and deduplication: when the deduplicated leaf count lies in
the interval [3, maxArity] and the wide cell named base followed by the
count exists in the library, the candidate is rewritten in place to that
type with pins A, B, C, ... bound to the leaves in discovery order and
pin Y unchanged, and every visited (inlined) producer is marked removed;
when the count is at most 2, or exceeds maxArity, or the wide cell is
absent, the state is left untouched.  The enclosing pass applies this
step to every snapshot entry and finally pops every marked name. -/
theorem C5_collapse_step (cells : CellsT) (maxArity : Nat) (lib : CellLibrary)
    (outNet : List (Nat × String))
    (connMap : List (String × (Option Nat × Option Nat × Option Nat)))
    (outBits : List Nat) (fanout : List (Nat × Nat)) (removed : List String)
    (rewritten : CellsT) (nm : String) (info : Cell) (base : String)
    (a b y : Nat) (r1 r2 : List String × List Nat) (deduped : List Nat)
    (target : String)
    (hnr : memL removed nm = false)
    (hb : lookupA _ASSOCIATIVE_2INPUT_TYPES info.type = some base)
    (haby : lookupA connMap nm = some (some a, some b, some y))
    (hr1 : collectLeafInputs maxArity outNet rewritten connMap outBits fanout
      removed nm info.type (cells.length + 2) a [] [] = r1)
    (hr2 : collectLeafInputs maxArity outNet rewritten connMap outBits fanout
      removed nm info.type (cells.length + 2) b r1.1 r1.2 = r2)
    (hd : dedupNats r2.2 = deduped)
    (ht : target = base ++ Nat.repr deduped.length) :
    (3 ≤ deduped.length → deduped.length ≤ maxArity → memL lib.cells target = true →
      collapseStep cells maxArity lib outNet connMap outBits fanout
        (removed, rewritten) (nm, info) =
        (r2.1 ++ removed,
         updateA rewritten nm
           { info with type := target, connections := widePins deduped y })) ∧
    (deduped.length ≤ 2 ∨ maxArity < deduped.length ∨ memL lib.cells target = false →
      collapseStep cells maxArity lib outNet connMap outBits fanout
        (removed, rewritten) (nm, info) = (removed, rewritten)) := by
  subst ht
  unfold collapseStep
  rw [hnr]
  simp only [Bool.false_eq_true, if_false]
  rw [hb, haby]
  simp only [hr1, hr2, hd]
  constructor
  · intro h3 hmax hmem
    have h2 : ¬ deduped.length ≤ 2 := by omega
    have hgt : ¬ deduped.length > maxArity := by omega
    simp [h2, hgt, hmem]
  · intro hfail
    rcases hfail with h2 | hgt | hmem
    · simp [h2]
    · by_cases h2 : deduped.length ≤ 2
      · simp [h2]
      · simp [h2, hgt]
    · by_cases h2 : deduped.length ≤ 2
      · simp [h2]
      · by_cases hgt : deduped.length > maxArity
        · simp [h2, hgt]
        · simp [h2, hgt, hmem]

/-- C5 witness: the two-gate AND chain fixture; candidate g2 collects
leaves 1, 2, 3, the library holds AND3, and the step rewrites g2 in
place while marking g1 removed. -/
theorem C5_collapse_step_witness :
    memL ([] : List String) "g2" = false ∧
    collapseStep c5Cells 4 c5Lib (buildOutNet c5Cells) (buildConnMap c5Cells)
      (outputPortBits c5Md) (buildFanout c5Cells) ([], c5Cells)
      ("g2", mkGate "$_AND_" 5 3 6) =
      (["g1"] ++ [],
       updateA c5Cells "g2"
         { mkGate "$_AND_" 5 3 6 with
             type := "AND3", connections := widePins [1, 2, 3] 6 }) :=
  ⟨by decide,
   (C5_collapse_step c5Cells 4 c5Lib (buildOutNet c5Cells) (buildConnMap c5Cells)
     (outputPortBits c5Md) (buildFanout c5Cells) [] c5Cells "g2"
     (mkGate "$_AND_" 5 3 6) "AND" 5 3 6 (["g1"], [1, 2])
     (["g1"], [1, 2, 3]) [1, 2, 3] "AND3" (by decide) (by decide) (by decide)
     (by decide) (by decide) (by decide) (by decide)).1
     (by decide) (by decide) (by decide)⟩

/-- Splitting a list that starts with a non-whitespace character yields
that character's word first. -/
theorem dropWS_cons_of_not_ws (c : Char) (cs : List Char)
    (h : c.isWhitespace = false) :
    dropWS (c :: cs) = c :: cs := by
  unfold dropWS
  rw [h]
  simp

/-- Splitting a list that starts with a non-whitespace character yields
that character's word first. -/
theorem wordsF_cons_of_not_ws (f : Nat) (c : Char) (cs : List Char)
    (h : c.isWhitespace = false) :
    wordsF (f + 1) (c :: cs) = (c :: takeWord cs) :: wordsF f (dropWord cs) := by
  conv_lhs => unfold wordsF
  rw [dropWS_cons_of_not_ws c cs h]

/-- The first token of a parsed line whose stripped text starts with M
or m: parsing either fails or yields an instance name whose upper-cased
head is M. -/
theorem parse_head_transistor (line : String) (c : Char) (cs : List Char)
    (h : (pystrip line).data = c :: cs) (hc : c = 'M' ∨ c = 'm') :
    parse_instance_line line = none ∨
    ∃ p0 nets ty ps, parse_instance_line line = some (p0, nets, ty, ps) ∧
      headUpperD p0 = 'M' := by
  have hcw : c.isWhitespace = false := by rcases hc with rfl | rfl <;> decide
  have hstar : ¬ (c = '*') := by rcases hc with rfl | rfl <;> decide
  have hlen : (pystrip line).data.length = cs.length + 1 := by rw [h]; rfl
  have hsplit : pysplit (pystrip line) =
      (⟨c :: takeWord cs⟩ : String) ::
        (wordsF (cs.length + 1) (dropWord cs)).map (fun l => (⟨l⟩ : String)) := by
    unfold pysplit
    rw [hlen, h, wordsF_cons_of_not_ws _ _ _ hcw]
    rfl
  have hhu : headUpperD (⟨c :: takeWord cs⟩ : String) = 'M' := by
    show (c.toUpper : Char) = 'M'
    rcases hc with rfl | rfl <;> decide
  have hform : parse_instance_line line =
      parseParts ((⟨c :: takeWord cs⟩ : String) ::
        (wordsF (cs.length + 1) (dropWord cs)).map (fun l => (⟨l⟩ : String))) := by
    unfold parse_instance_line
    rw [h]
    simp only [hstar, if_false]
    rw [hsplit]
  rw [hform]
  generalize (wordsF (cs.length + 1) (dropWord cs)).map (fun l => (⟨l⟩ : String)) = rest
  unfold parseParts
  by_cases h2 : ((⟨c :: takeWord cs⟩ : String) :: rest).length < 2
  · rw [if_pos h2]; exact Or.inl rfl
  · rw [if_neg h2]
    have hnx : ¬ (c ≠ 'X' ∧ c ≠ 'M' ∧ c ≠ 'x' ∧ c ≠ 'm') := by
      rcases hc with rfl | rfl <;> simp
    have hmu : c.toUpper = 'M' := by rcases hc with rfl | rfl <;> decide
    simp only [hnx, if_false, hmu, if_pos]
    by_cases h6 : ((⟨c :: takeWord cs⟩ : String) :: rest).length < 6
    · simp only [h6, if_true]; exact Or.inl trivial
    · simp only [h6, if_false]
      refine Or.inr ⟨_, _, _, _, rfl, hhu⟩

/-- C9: a line that is already a transistor instance (stripped text
starting with M or m) is returned unchanged by the lowering function as
a single-element list, for every definition collection, counter state,
prefix, and fuel. -/
theorem C9_transistor_identity (fuel : Nat) (line : String)
    (defs : List (String × SubcircuitDefinition)) (σ : List (String × Nat))
    (pfx : String) (c : Char) (cs : List Char)
    (h : (pystrip line).data = c :: cs) (hc : c = 'M' ∨ c = 'm') :
    (expand_instance_to_transistors fuel line defs σ pfx).1 = [line] := by
  cases fuel with
  | zero => rfl
  | succ f =>
    rcases parse_head_transistor line c cs h hc with hp | ⟨p0, nets, ty, ps, hp, hu⟩
    · unfold expand_instance_to_transistors
      rw [hp]
    · unfold expand_instance_to_transistors
      rw [hp]
      simp [hu]

/-- C8 amended: top-module resolution as the code performs it — exact
match, then one added escape marker, then the first module matching with
ALL leading markers stripped; with no usable name, the sole module, else
the first module whose name (exact or fully stripped) is unused as any
module's cell type (its own included), else the first module; `none`
(the ValueError) only for an empty design or an unmatched explicit
name.  The code realises exactly this resolution. -/
theorem C8_resolution_amended (modules : List (String × ModuleInfo))
    (topName : Option String) :
    get_top_module modules topName = specTopResolution modules topName := by
  cases topName <;> rfl

/-- C9 witness: a transistor line with leading whitespace is returned
verbatim. -/
theorem C9_transistor_identity_witness :
    (pystrip " M1 d g s b NMOS").data = 'M' :: "1 d g s b NMOS".data ∧
    (expand_instance_to_transistors 5 " M1 d g s b NMOS" [] [] "").1 =
      [" M1 d g s b NMOS"] :=
  ⟨by decide,
   C9_transistor_identity 5 " M1 d g s b NMOS" [] [] "" 'M' "1 d g s b NMOS".data
     (by decide) (Or.inl rfl)⟩

/-- String concatenation is associative (on the underlying lists). -/
theorem strAppendAssoc (a b c : String) : a ++ b ++ c = a ++ (b ++ c) := by
  cases a; cases b; cases c
  show String.mk _ = String.mk _
  rw [List.append_assoc]

/-- A body line of the expansion whose stripped text parses as a
transistor contributes one output line headed by the renamed instance. -/
theorem expandBody_contains
    (recur : String → List (String × Nat) → String → List String × List (String × Nat))
    (pfx iname : String) (portMap : List (String × String)) (body : List String)
    (imap : List (String × String)) (σ : List (String × Nat)) (l0 : String)
    (hl : l0 ∈ body) (mname mty : String) (mnets mps : List String)
    (hne : (pystrip l0).data ≠ [])
    (hns : (pystrip l0).data.head? ≠ some '*')
    (hpm : parse_instance_line (pystrip l0) = some (mname, mnets, mty, mps))
    (hM : headUpperD mname = 'M')
    (hXi : headUpperD iname = 'X')
    (hlen : 1 < mname.length) :
    ∃ s ∈ (expandBody recur pfx iname portMap body imap σ).1, ∃ tail,
      s = (if pfx ≠ "" then pfx ++ iname ++ "_" ++ ("X" ++ strDrop1 mname)
           else iname ++ "_" ++ ("X" ++ strDrop1 mname)) ++ " " ++ tail := by
  induction body generalizing imap σ with
  | nil => cases hl
  | cons l rest ih =>
    rcases List.mem_cons.mp hl with rfl | hrest
    · unfold expandBody
      have hguard : ¬ ((pystrip l0).data = [] ∨ (pystrip l0).data.head? = some '*') := by
        intro hor; rcases hor with h1 | h2
        · exact hne h1
        · exact hns h2
      simp only [hguard, if_false]
      rw [hpm]
      simp only [hM, hXi, hlen, if_true, and_self, gt_iff_lt]
      refine ⟨_, List.mem_cons_self _ _,
        pyjoin " " (mapNets portMap pfx iname imap σ mnets).1 ++ " " ++ mty ++
          (if mps ≠ [] then " " ++ pyjoin " " mps else ""), ?_⟩
      simp only [strAppendAssoc]
    · unfold expandBody
      by_cases hguard : (pystrip l).data = [] ∨ (pystrip l).data.head? = some '*'
      · simp only [hguard, if_true]
        exact ih imap σ hrest
      · simp only [hguard, if_false]
        cases hq : parse_instance_line (pystrip l) with
        | none => exact ih imap σ hrest
        | some quad =>
          obtain ⟨qn, qnets, qty, qps⟩ := quad
          by_cases hqm : headUpperD qn = 'M'
          · simp only [hqm, if_true, if_pos]
            obtain ⟨s, hs, tail, ht⟩ := ih
              (mapNets portMap pfx iname imap σ qnets).2.1
              (mapNets portMap pfx iname imap σ qnets).2.2 hrest
            exact ⟨s, List.mem_cons_of_mem _ hs, tail, ht⟩
          · simp only [hqm, if_false]
            by_cases hqx : headUpperD qn = 'X'
            · simp only [hqx, if_true, if_pos]
              obtain ⟨s, hs, tail, ht⟩ := ih
                (mapNets portMap pfx iname imap σ qnets).2.1
                (recur _ (mapNets portMap pfx iname imap σ qnets).2.2 _).2 hrest
              exact ⟨s, List.mem_append_right _ hs, tail, ht⟩
            · simp only [hqx, if_false]
              obtain ⟨s, hs, tail, ht⟩ := ih
                (mapNets portMap pfx iname imap σ qnets).2.1
                (mapNets portMap pfx iname imap σ qnets).2.2 hrest
              exact ⟨s, List.mem_cons_of_mem _ hs, tail, ht⟩

/-- C10 amended: when a subcircuit instance whose name begins with X is
expanded, every body transistor line whose name has at least one
character after its leading M is emitted with the instance name
prefix + instance name + "_X" + (transistor name without its leading M);
a body transistor named by the bare letter M keeps that name (the
counterexample), though the emitted name still begins with the
X-prefixed enclosing instance. -/
theorem C10_body_transistor_name (fuel : Nat) (line : String)
    (defs : List (String × SubcircuitDefinition)) (σ : List (String × Nat))
    (pfx : String) (iname T : String) (conns ps : List String)
    (D : SubcircuitDefinition) (l0 : String) (mname mty : String)
    (mnets mps : List String)
    (hp : parse_instance_line line = some (iname, conns, T, ps))
    (hX : headUpperD iname = 'X')
    (hd : lookupA defs T = some D)
    (hl : l0 ∈ D.instances)
    (hne : (pystrip l0).data ≠ [])
    (hns : (pystrip l0).data.head? ≠ some '*')
    (hpm : parse_instance_line (pystrip l0) = some (mname, mnets, mty, mps))
    (hM : headUpperD mname = 'M')
    (hlen : 1 < mname.length) :
    ∃ s ∈ (expand_instance_to_transistors (fuel + 1) line defs σ pfx).1, ∃ tail,
      s = (if pfx ≠ "" then pfx ++ iname ++ "_" ++ ("X" ++ strDrop1 mname)
           else iname ++ "_" ++ ("X" ++ strDrop1 mname)) ++ " " ++ tail := by
  unfold expand_instance_to_transistors
  rw [hp]
  have hxm : ¬ headUpperD iname = 'M' := by rw [hX]; decide
  simp only [hxm, if_false]
  rw [hd]
  exact expandBody_contains _ pfx iname _ D.instances [] σ l0 hl mname mty mnets
    mps hne hns hpm hM hX hlen

/-- C10 amended witness: expanding an X-named instance of a subcircuit
with a two-character body transistor M1 emits the X1-renamed line. -/
theorem C10_body_transistor_name_witness :
    parse_instance_line "X9 p q BUF" = some ("X9", ["p", "q"], "BUF", []) ∧
    (∃ s ∈ (expand_instance_to_transistors 1 "X9 p q BUF" c10wDefs [] "").1, ∃ tail,
      s = (if ("" : String) ≠ "" then "" ++ "X9" ++ "_" ++ ("X" ++ strDrop1 "M1")
           else "X9" ++ "_" ++ ("X" ++ strDrop1 "M1")) ++ " " ++ tail) :=
  ⟨by decide,
   C10_body_transistor_name 0 "X9 p q BUF" c10wDefs [] "" "X9" "BUF" ["p", "q"]
     [] (SubcircuitDefinition.mk "BUF" ["A", "Y"] ["M1 mid A VSS VSS NMOS"])
     "M1 mid A VSS VSS NMOS" "M1" "NMOS" ["mid", "A", "VSS", "VSS"] []
     (by decide) (by decide) (by decide) (by decide) (by decide) (by decide)
     (by decide) (by decide) (by decide)⟩

/-! ## Association-list lemmas shared by the pass proofs -/

theorem lookupA_updateA_self {κ β : Type} [DecidableEq κ]
    (m : List (κ × β)) (k : κ) (v : β) :
    lookupA (updateA m k v) k = some v := by
  induction m with
  | nil => simp [updateA, lookupA]
  | cons p rest ih =>
    by_cases h : p.1 = k
    · simp [updateA, h, lookupA]
    · simp [updateA, h, lookupA, ih]

theorem lookupA_updateA_ne {κ β : Type} [DecidableEq κ]
    (m : List (κ × β)) (k k' : κ) (v : β) (h : k' ≠ k) :
    lookupA (updateA m k v) k' = lookupA m k' := by
  have hk : ¬ k = k' := fun he => h he.symm
  induction m with
  | nil => simp [updateA, lookupA, hk]
  | cons p rest ih =>
    by_cases hp : p.1 = k
    · subst hp
      simp [updateA, lookupA, hk]
    · simp [updateA, hp, lookupA, ih]

theorem lookupA_none_of_forall {κ β : Type} [DecidableEq κ]
    (m : List (κ × β)) (k : κ) (h : ∀ p ∈ m, p.1 ≠ k) :
    lookupA m k = none := by
  induction m with
  | nil => rfl
  | cons p rest ih =>
    have hp := h p (List.mem_cons_self p rest)
    simp only [lookupA, hp, if_false]
    exact ih (fun q hq => h q (List.mem_cons_of_mem p hq))

theorem updateA_append_of_none {κ β : Type} [DecidableEq κ]
    (m : List (κ × β)) (k : κ) (v : β) (h : lookupA m k = none) :
    updateA m k v = m ++ [(k, v)] := by
  induction m with
  | nil => rfl
  | cons p rest ih =>
    simp only [lookupA] at h
    by_cases hp : p.1 = k
    · simp [hp] at h
    · simp only [hp, if_false] at h
      simp [updateA, hp, ih h]

/-- In a key-distinct association list, two entries with the same key are
the same entry. -/
theorem value_eq_of_nodup_keys {κ β : Type} [DecidableEq κ]
    (l : List (κ × β)) (hnd : (l.map Prod.fst).Nodup) (k : κ) (v1 v2 : β)
    (h1 : (k, v1) ∈ l) (h2 : (k, v2) ∈ l) : v1 = v2 := by
  induction l with
  | nil => cases h1
  | cons p rest ih =>
    simp only [List.map_cons, List.nodup_cons] at hnd
    rcases List.mem_cons.mp h1 with he1 | h1'
    · rcases List.mem_cons.mp h2 with he2 | h2'
      · rw [← he2] at he1
        exact congrArg Prod.snd he1
      · exfalso
        have h' : (k, v2).1 ∈ rest.map Prod.fst := List.mem_map_of_mem Prod.fst h2'
        apply hnd.1
        rw [← he1]
        exact h'
    · rcases List.mem_cons.mp h2 with he2 | h2'
      · exfalso
        have h' : (k, v1).1 ∈ rest.map Prod.fst := List.mem_map_of_mem Prod.fst h1'
        apply hnd.1
        rw [← he2]
        exact h'
      · exact ih hnd.2 h1' h2'

/-- Folding key-wise updates over entries whose keys avoid k leaves the
lookup of k unchanged. -/
theorem lookupA_foldl_updateA_preserve {β : Type} (f : Cell → β)
    (l : List (String × Cell)) (m : List (String × β)) (n : String)
    (h : ∀ q ∈ l, q.1 ≠ n) :
    lookupA (l.foldl (fun m p => updateA m p.1 (f p.2)) m) n = lookupA m n := by
  induction l generalizing m with
  | nil => rfl
  | cons q rest ih =>
    have hq := h q (List.mem_cons_self q rest)
    rw [List.foldl_cons, ih _ (fun r hr => h r (List.mem_cons_of_mem q hr))]
    exact lookupA_updateA_ne _ _ _ _ (fun he => hq he.symm)

/-- Lookup in a keywise-update fold over a key-distinct cells list finds
the entry's value. -/
theorem lookupA_foldl_updateA {β : Type} (f : Cell → β)
    (cells : CellsT) (m0 : List (String × β)) (n : String) (c : Cell)
    (hnd : (cells.map Prod.fst).Nodup) (hmem : (n, c) ∈ cells) :
    lookupA (cells.foldl (fun m p => updateA m p.1 (f p.2)) m0) n = some (f c) := by
  induction cells generalizing m0 with
  | nil => cases hmem
  | cons p rest ih =>
    simp only [List.map_cons, List.nodup_cons] at hnd
    rcases List.mem_cons.mp hmem with rfl | hmem'
    · rw [List.foldl_cons]
      have hav : ∀ q ∈ rest, q.1 ≠ n := by
        intro q hq he
        have h' : q.1 ∈ rest.map Prod.fst := List.mem_map_of_mem Prod.fst hq
        rw [he] at h'
        exact hnd.1 h'
      rw [lookupA_foldl_updateA_preserve f rest _ n hav]
      exact lookupA_updateA_self _ _ _
    · rw [List.foldl_cons]
      exact ih _ hnd.2 hmem'

/-- The connection map assigns each cell of a key-distinct module its
scalar A/B/Y triple. -/
theorem lookupA_buildConnMap (cells : CellsT) (n : String) (c : Cell)
    (hnd : (cells.map Prod.fst).Nodup) (hmem : (n, c) ∈ cells) :
    lookupA (buildConnMap cells) n = some (cellABYOf c) :=
  lookupA_foldl_updateA cellABYOf cells [] n c hnd hmem

/-- The string data of a concatenation. -/
theorem strDataAppend (a b : String) : (a ++ b).data = a.data ++ b.data := by
  cases a; cases b; rfl

/-- A half-adder iteration skips any cell that is not an internal XOR. -/
theorem haStep_skip (cells : CellsT)
    (connMap : List (String × (Option Nat × Option Nat × Option Nat)))
    (st : List String × CellsT) (p : String × Cell)
    (h : p.2.type ≠ "$_XOR_") :
    haStep cells connMap st p = st := by
  unfold haStep
  by_cases hm : memL st.1 p.1 = true
  · simp [hm]
  · simp [hm, h]

/-- Folding half-adder iterations over XOR-free entries is the
identity. -/
theorem haStep_skip_fold (cells : CellsT)
    (connMap : List (String × (Option Nat × Option Nat × Option Nat)))
    (l : List (String × Cell)) (st : List String × CellsT)
    (h : ∀ p ∈ l, p.2.type ≠ "$_XOR_") :
    l.foldl (haStep cells connMap) st = st := by
  induction l generalizing st with
  | nil => rfl
  | cons p rest ih =>
    rw [List.foldl_cons, haStep_skip cells connMap st p (h p (List.mem_cons_self p rest))]
    exact ih st (fun q hq => h q (List.mem_cons_of_mem p hq))

/-- A full-adder iteration skips already-removed cells and non-XOR
cells. -/
theorem faStep_skip (cells : CellsT)
    (connMap : List (String × (Option Nat × Option Nat × Option Nat)))
    (st : List String × CellsT) (p : String × Cell)
    (h : memL st.1 p.1 = true ∨ p.2.type ≠ "$_XOR_") :
    faStep cells connMap st p = st := by
  unfold faStep
  rcases h with hm | ht
  · simp [hm]
  · by_cases hm : memL st.1 p.1 = true
    · simp [hm]
    · simp [hm, ht]

/-- Folding full-adder iterations is the identity when every XOR cell is
already removed. -/
theorem faStep_skip_fold (cells : CellsT)
    (connMap : List (String × (Option Nat × Option Nat × Option Nat)))
    (l : List (String × Cell)) (st : List String × CellsT)
    (h : ∀ p ∈ l, p.2.type = "$_XOR_" → memL st.1 p.1 = true) :
    l.foldl (faStep cells connMap) st = st := by
  induction l generalizing st with
  | nil => rfl
  | cons p rest ih =>
    have hstep : faStep cells connMap st p = st := by
      by_cases ht : p.2.type = "$_XOR_"
      · exact faStep_skip cells connMap st p (Or.inl (h p (List.mem_cons_self p rest) ht))
      · exact faStep_skip cells connMap st p (Or.inr ht)
    rw [List.foldl_cons, hstep]
    exact ih st (fun q hq => h q (List.mem_cons_of_mem p hq))

/-- With an empty removed set, a unique AND cell on the matching pair is
the one the half-adder search finds. -/
theorem findHAAnd_unique
    (connMap : List (String × (Option Nat × Option Nat × Option Nat)))
    (xn cn : String) (cc : Cell) (a b ca cb cy : Nat) (l : List (String × Cell))
    (hmem : (cn, cc) ∈ l)
    (huniq : ∀ p ∈ l, p.2.type = "$_AND_" → p = (cn, cc))
    (hcnxn : cn ≠ xn)
    (hct : cc.type = "$_AND_")
    (hlk : lookupA connMap cn = some (some ca, some cb, some cy))
    (hpair : (a = ca ∧ b = cb) ∨ (a = cb ∧ b = ca)) :
    findHAAnd connMap [] xn a b l = some (cn, cy) := by
  induction l with
  | nil => cases hmem
  | cons p rest ih =>
    by_cases hp : p = (cn, cc)
    · subst hp
      unfold findHAAnd
      rw [hlk]
      simp [memL, hcnxn, hct, hpair]
    · have hty : p.2.type ≠ "$_AND_" := fun ht => hp (huniq p (List.mem_cons_self p rest) ht)
      have hmem' : (cn, cc) ∈ rest := by
        rcases List.mem_cons.mp hmem with he | hr
        · exact absurd he.symm hp
        · exact hr
      unfold findHAAnd
      have hcond : ¬ (¬ memL ([] : List String) p.1 = true ∧ p.1 ≠ xn ∧
          p.2.type = "$_AND_") := by
        intro hc
        exact hty hc.2.2
      simp only [hcond, if_false]
      exact ih hmem' (fun q hq => huniq q (List.mem_cons_of_mem p hq))

/-- The half-adder phase on a module whose only XOR is xn and whose only
AND is cn, the two matching on the same unordered pair: it marks exactly
those two cells removed and appends one HA cell. -/
theorem haPhase_unique (cells : CellsT)
    (xn cn : String) (xc cc : Cell) (a b sy ca cb cy : Nat)
    (hnd : (cells.map Prod.fst).Nodup)
    (hx : (xn, xc) ∈ cells) (hxt : xc.type = "$_XOR_")
    (hxaby : cellABYOf xc = (some a, some b, some sy))
    (hcm : (cn, cc) ∈ cells) (hct : cc.type = "$_AND_")
    (hcaby : cellABYOf cc = (some ca, some cb, some cy))
    (hpair : (a = ca ∧ b = cb) ∨ (a = cb ∧ b = ca))
    (huniqx : ∀ p ∈ cells, p.2.type = "$_XOR_" → p = (xn, xc))
    (huniqc : ∀ p ∈ cells, p.2.type = "$_AND_" → p = (cn, cc))
    (hfresh : ∀ p ∈ cells, p.1 ≠ "HA_" ++ xn) :
    cells.foldl (haStep cells (buildConnMap cells)) ([], cells) =
      ([cn, xn], cells ++ [("HA_" ++ xn, mkHACell a b sy cy)]) := by
  have hcnxn : cn ≠ xn := by
    intro he
    have hxc : cc = xc := value_eq_of_nodup_keys cells hnd xn cc xc (he ▸ hcm) hx
    rw [hxc, hxt] at hct
    exact absurd hct (by decide)
  obtain ⟨l1, l2, hsplit⟩ := List.append_of_mem hx
  have hndk : (l1.map Prod.fst ++ xn :: l2.map Prod.fst).Nodup := by
    have := hnd
    rw [hsplit] at this
    simpa using this
  have hxn_l1 : xn ∉ l1.map Prod.fst := by
    intro hin
    exact (List.disjoint_left.mp (List.nodup_append.mp hndk).2.2 hin)
      (List.mem_cons_self xn _)
  have hxn_l2 : xn ∉ l2.map Prod.fst := by
    have := (List.nodup_append.mp hndk).2.1
    exact (List.nodup_cons.mp this).1
  have hskip1 : ∀ p ∈ l1, p.2.type ≠ "$_XOR_" := by
    intro p hp ht
    have hpc : p ∈ cells := by rw [hsplit]; exact List.mem_append_left _ hp
    have := huniqx p hpc ht
    apply hxn_l1
    rw [this] at hp
    exact List.mem_map_of_mem Prod.fst hp
  have hskip2 : ∀ p ∈ l2, p.2.type ≠ "$_XOR_" := by
    intro p hp ht
    have hpc : p ∈ cells := by
      rw [hsplit]
      exact List.mem_append_right _ (List.mem_cons_of_mem _ hp)
    have := huniqx p hpc ht
    apply hxn_l2
    rw [this] at hp
    exact List.mem_map_of_mem Prod.fst hp
  have hstepx : haStep cells (buildConnMap cells) ([], cells) (xn, xc) =
      ([cn, xn], cells ++ [("HA_" ++ xn, mkHACell a b sy cy)]) := by
    unfold haStep
    have hlkx : lookupA (buildConnMap cells) xn = some (cellABYOf xc) :=
      lookupA_buildConnMap cells xn xc hnd hx
    rw [hxaby] at hlkx
    have hfind : findHAAnd (buildConnMap cells) [] xn a b cells = some (cn, cy) := by
      have hlkc : lookupA (buildConnMap cells) cn = some (cellABYOf cc) :=
        lookupA_buildConnMap cells cn cc hnd hcm
      rw [hcaby] at hlkc
      exact findHAAnd_unique (buildConnMap cells) xn cn cc a b ca cb cy cells
        hcm huniqc hcnxn hct hlkc hpair
    have hup : updateA cells ("HA_" ++ xn) (mkHACell a b sy cy) =
        cells ++ [("HA_" ++ xn, mkHACell a b sy cy)] :=
      updateA_append_of_none cells _ _ (lookupA_none_of_forall cells _ hfresh)
    rw [hlkx]
    simp [memL, hxt, hfind, hup]
  calc cells.foldl (haStep cells (buildConnMap cells)) ([], cells)
      = (l1 ++ (xn, xc) :: l2).foldl (haStep cells (buildConnMap cells)) ([], cells) := by
        rw [← hsplit]
    _ = l2.foldl (haStep cells (buildConnMap cells))
          (haStep cells (buildConnMap cells)
            (l1.foldl (haStep cells (buildConnMap cells)) ([], cells)) (xn, xc)) := by
        rw [List.foldl_append, List.foldl_cons]
    _ = ([cn, xn], cells ++ [("HA_" ++ xn, mkHACell a b sy cy)]) := by
        rw [haStep_skip_fold _ _ l1 _ hskip1, hstepx,
          haStep_skip_fold _ _ l2 _ hskip2]

/-- C4 amended: the claim holds with the proviso that a cell consumed by
one match is never offered to another (each XOR is paired with the first
available matching AND, so a second XOR sharing the pair may survive, as
the counterexample shows).  In particular, when the module contains
exactly one internal XOR and exactly one internal AND and they consume
the same unordered pair, a library with an HA cell makes the pass remove
both and insert exactly one HA cell whose A/B pins are that pair, whose
SUM is the XOR's output and whose CARRY is the AND's output; and with
neither HA nor FA in the library the pass returns the cells unchanged. -/
theorem C4_unique_pair_ha (cells : CellsT) (lib : CellLibrary)
    (xn cn : String) (xc cc : Cell) (a b sy ca cb cy : Nat)
    (hnd : (cells.map Prod.fst).Nodup)
    (hha : memL lib.cells "HA" = true)
    (hx : (xn, xc) ∈ cells) (hxt : xc.type = "$_XOR_")
    (hxaby : cellABYOf xc = (some a, some b, some sy))
    (hcm : (cn, cc) ∈ cells) (hct : cc.type = "$_AND_")
    (hcaby : cellABYOf cc = (some ca, some cb, some cy))
    (hpair : (a = ca ∧ b = cb) ∨ (a = cb ∧ b = ca))
    (huniqx : ∀ p ∈ cells, p.2.type = "$_XOR_" → p = (xn, xc))
    (huniqc : ∀ p ∈ cells, p.2.type = "$_AND_" → p = (cn, cc))
    (hfresh : ∀ p ∈ cells, p.1 ≠ "HA_" ++ xn) :
    (_detect_adder_patterns cells lib =
      cells.filter (fun p => ! memL [cn, xn] p.1) ++
        [("HA_" ++ xn, mkHACell a b sy cy)]) ∧
    (∀ cells0 lib0, memL (CellLibrary.cells lib0) "HA" = false →
      memL (CellLibrary.cells lib0) "FA" = false →
      _detect_adder_patterns cells0 lib0 = cells0) := by
  constructor
  · have hcnxn : cn ≠ xn := by
      intro he
      have hxc : cc = xc := value_eq_of_nodup_keys cells hnd xn cc xc (he ▸ hcm) hx
      rw [hxc, hxt] at hct
      exact absurd hct (by decide)
    have hha' :
        cells.foldl (haStep cells (buildConnMap cells)) ([], cells) =
        ([cn, xn], cells ++ [("HA_" ++ xn, mkHACell a b sy cy)]) :=
      haPhase_unique cells xn cn xc cc a b sy ca cb cy hnd hx hxt hxaby hcm
        hct hcaby hpair huniqx huniqc hfresh
    have hexit : ¬ (memL lib.cells "HA" = false ∧ memL lib.cells "FA" = false) := by
      rw [hha]; simp
    have hfaskip : ∀ st1 : List String × CellsT, st1 = ([cn, xn], cells ++
        [("HA_" ++ xn, mkHACell a b sy cy)]) →
        cells.foldl (faStep cells (buildConnMap cells)) st1 = st1 := by
      intro st1 hst1
      apply faStep_skip_fold
      intro p hp ht
      have := huniqx p hp ht
      rw [this, hst1]
      show memL [cn, xn] xn = true
      by_cases h : cn = xn <;> simp [memL, h]
    have hxnne : ¬ xn = "HA_" ++ xn := by
      intro he
      have hlen : xn.data.length = ("HA_" ++ xn).data.length := by rw [← he]
      rw [strDataAppend] at hlen
      rw [List.length_append] at hlen
      have h3 : ("HA_" : String).data.length = 3 := by decide
      omega
    have hcnne : ¬ cn = "HA_" ++ xn := hfresh (cn, cc) hcm
    have hmemf : memL [cn, xn] ("HA_" ++ xn) = false := by
      simp [memL, hcnne, hxnne]
    unfold _detect_adder_patterns
    by_cases hfa : memL lib.cells "FA" = true <;>
      simp [hha, hfa, hha', hfaskip _ rfl, hmemf, List.filter_append]
  · intro cells0 lib0 h1 h2
    unfold _detect_adder_patterns
    simp [h1, h2]

/-- C4 amended witness: the single XOR/AND pair on nets \x7b1,2\x7d (the AND
with its operands in the opposite order) with HA and FA in the library;
both cells are removed and the single HA takes their outputs. -/
theorem C4_unique_pair_ha_witness :
    memL c4wLib.cells "HA" = true ∧
    _detect_adder_patterns c4wCells c4wLib =
      c4wCells.filter (fun p => ! memL ["c", "x"] p.1) ++
        [("HA_" ++ "x", mkHACell 1 2 4 6)] :=
  ⟨by decide,
   (C4_unique_pair_ha c4wCells c4wLib "x" "c" (mkGate "$_XOR_" 1 2 4)
     (mkGate "$_AND_" 2 1 6) 1 2 4 2 1 6 (by decide) (by decide) (by decide)
     (by decide) (by decide) (by decide) (by decide) (by decide) (by decide)
     (by decide) (by decide) (by decide)).1⟩

/-! ## Decimal formatting lemmas: the unique-name scheme is injective -/

theorem toDigitsCore_acc (b : Nat) : ∀ (f n : Nat) (ds : List Char),
    Nat.toDigitsCore b f n ds = Nat.toDigitsCore b f n [] ++ ds := by
  intro f
  induction f with
  | zero => intro n ds; rfl
  | succ f ih =>
    intro n ds
    unfold Nat.toDigitsCore
    by_cases h : n / b = 0
    · simp [h]
    · simp only [h, if_false]
      rw [ih (n / b) (Nat.digitChar (n % b) :: ds),
        ih (n / b) [Nat.digitChar (n % b)], List.append_assoc]
      rfl

theorem mem_toDigitsCore : ∀ (f n : Nat) (ds : List Char) (c : Char),
    c ∈ Nat.toDigitsCore 10 f n ds → c ∈ ds ∨ ∃ m, m < 10 ∧ c = Nat.digitChar m := by
  intro f
  induction f with
  | zero => intro n ds c h; exact Or.inl h
  | succ f ih =>
    intro n ds c h
    unfold Nat.toDigitsCore at h
    by_cases hd : n / 10 = 0
    · simp only [hd, if_true] at h
      rcases List.mem_cons.mp h with he | hds
      · exact Or.inr ⟨n % 10, Nat.mod_lt n (by omega), he⟩
      · exact Or.inl hds
    · simp only [hd, if_false] at h
      rcases ih (n / 10) _ c h with hds | hdig
      · rcases List.mem_cons.mp hds with he | hds'
        · exact Or.inr ⟨n % 10, Nat.mod_lt n (by omega), he⟩
        · exact Or.inl hds'
      · exact Or.inr hdig

theorem no_underscore_repr (n : Nat) : '_' ∉ (Nat.repr n).data := by
  intro hmem
  have hdata : (Nat.repr n).data = Nat.toDigitsCore 10 (n + 1) n [] := rfl
  rw [hdata] at hmem
  rcases mem_toDigitsCore (n + 1) n [] '_' hmem with h | ⟨m, hm, he⟩
  · cases h
  · have hall : ∀ m, m < 10 → Nat.digitChar m ≠ '_' := by decide
    exact hall m hm he.symm

theorem decode_toDigitsCore : ∀ (f n : Nat), n < f →
    decodeDigits (Nat.toDigitsCore 10 f n []) = n := by
  intro f
  induction f with
  | zero => intro n h; omega
  | succ f ih =>
    intro n h
    have hdc : ∀ m, m < 10 → (Nat.digitChar m).toNat - 48 = m := by decide
    unfold Nat.toDigitsCore
    by_cases hd : n / 10 = 0
    · simp only [hd, if_true]
      show 10 * 0 + ((Nat.digitChar (n % 10)).toNat - 48) = n
      have h10 : n % 10 < 10 := Nat.mod_lt n (by omega)
      have hlt : n < 10 := by
        by_contra hge
        push_neg at hge
        have : 1 ≤ n / 10 := Nat.le_div_iff_mul_le (by omega) |>.mpr (by omega)
        omega
      rw [hdc _ h10, Nat.mod_eq_of_lt hlt]
      omega
    · simp only [hd, if_false]
      rw [toDigitsCore_acc 10 f (n / 10) [Nat.digitChar (n % 10)]]
      have hfold : decodeDigits
          (Nat.toDigitsCore 10 f (n / 10) [] ++ [Nat.digitChar (n % 10)]) =
          10 * decodeDigits (Nat.toDigitsCore 10 f (n / 10) []) +
            ((Nat.digitChar (n % 10)).toNat - 48) := by
        unfold decodeDigits
        rw [List.foldl_append]
        rfl
      have hne : n ≠ 0 := by
        intro h0
        rw [h0] at hd
        exact hd rfl
      have hlt : n / 10 < n := Nat.div_lt_self (Nat.pos_of_ne_zero hne) (by omega)
      rw [hfold, ih (n / 10) (by omega), hdc _ (Nat.mod_lt n (by omega))]
      have := Nat.div_add_mod n 10
      omega

theorem repr_inj (m n : Nat) (h : Nat.repr m = Nat.repr n) : m = n := by
  have hm := decode_toDigitsCore (m + 1) m (by omega)
  have hn := decode_toDigitsCore (n + 1) n (by omega)
  have hd : Nat.toDigitsCore 10 (m + 1) m [] = Nat.toDigitsCore 10 (n + 1) n [] := by
    have := congrArg String.data h
    exact this
  rw [hd] at hm
  rw [hm] at hn
  exact hn

/-- Two strings of key-underscore-digits shape are equal only
componentwise, since the digit part never contains an underscore. -/
theorem us_split : ∀ (x1 y1 x2 y2 : List Char),
    '_' ∉ x1 → '_' ∉ x2 → x1 ++ '_' :: y1 = x2 ++ '_' :: y2 →
    x1 = x2 ∧ y1 = y2 := by
  intro x1
  induction x1 with
  | nil =>
    intro y1 x2 y2 h1 h2 he
    cases x2 with
    | nil => simpa using he
    | cons c x2' =>
      simp only [List.nil_append, List.cons_append, List.cons.injEq] at he
      exfalso
      apply h2
      rw [he.1]
      exact List.mem_cons_self c x2'

  | cons c x1' ih =>
    intro y1 x2 y2 h1 h2 he
    cases x2 with
    | nil =>
      simp only [List.cons_append, List.nil_append, List.cons.injEq] at he
      exfalso
      apply h1
      rw [← he.1]
      exact List.mem_cons_self c x1'

    | cons d x2' =>
      simp only [List.cons_append, List.cons.injEq] at he
      have h1' : '_' ∉ x1' := fun hm => h1 (List.mem_cons_of_mem c hm)
      have h2' : '_' ∉ x2' := fun hm => h2 (List.mem_cons_of_mem d hm)
      obtain ⟨hx, hy⟩ := ih y1 x2' y2 h1' h2' he.2
      exact ⟨by rw [he.1, hx], hy⟩

/-- Rebuild string equality from data equality. -/
theorem strEta (a b : String) (h : a.data = b.data) : a = b := by
  cases a; cases b; exact congrArg String.mk h

/-- The generated-name former key plus underscore plus decimal count is
injective. -/
theorem mkName_inj (k1 k2 : String) (c1 c2 : Nat)
    (h : mkName k1 c1 = mkName k2 c2) : k1 = k2 ∧ c1 = c2 := by
  have hd : k1.data ++ '_' :: (Nat.repr c1).data =
      k2.data ++ '_' :: (Nat.repr c2).data := by
    have h0 := congrArg String.data h
    unfold mkName at h0
    rw [strDataAppend, strDataAppend, strDataAppend, strDataAppend] at h0
    simpa using h0
  have hrev : (Nat.repr c1).data.reverse ++ '_' :: k1.data.reverse =
      (Nat.repr c2).data.reverse ++ '_' :: k2.data.reverse := by
    have := congrArg List.reverse hd
    simpa [List.reverse_append] using this
  have hnr1 : '_' ∉ (Nat.repr c1).data.reverse := by
    rw [List.mem_reverse]
    exact no_underscore_repr c1
  have hnr2 : '_' ∉ (Nat.repr c2).data.reverse := by
    rw [List.mem_reverse]
    exact no_underscore_repr c2
  obtain ⟨hx, hy⟩ := us_split _ _ _ _ hnr1 hnr2 hrev
  constructor
  · exact strEta _ _ (List.reverse_injective hy)
  · exact repr_inj c1 c2 (strEta _ _ (List.reverse_injective hx))

theorem cnt_updateA_self (σ : List (String × Nat)) (k : String) (v : Nat) :
    cnt (updateA σ k v) k = v := by
  unfold cnt lookupD
  rw [lookupA_updateA_self]
  rfl

theorem cnt_updateA_ne (σ : List (String × Nat)) (k k' : String) (v : Nat)
    (h : k' ≠ k) : cnt (updateA σ k v) k' = cnt σ k' := by
  unfold cnt lookupD
  rw [lookupA_updateA_ne _ _ _ _ h]

theorem cLE_refl (σ : List (String × Nat)) : cLE σ σ :=
  fun _ => Nat.le_refl _

theorem cLE_trans (σ1 σ2 σ3 : List (String × Nat))
    (h1 : cLE σ1 σ2) (h2 : cLE σ2 σ3) : cLE σ1 σ3 :=
  fun k => Nat.le_trans (h1 k) (h2 k)

theorem InRange_widen (σ0 σa σb σ1 : List (String × Nat)) (s : String)
    (h0 : cLE σ0 σa) (h : InRange σa σb s) (h1 : cLE σb σ1) :
    InRange σ0 σ1 s := by
  obtain ⟨k, c, he, hlo, hhi⟩ := h
  exact ⟨k, c, he, Nat.le_trans (h0 k) hlo, Nat.lt_of_lt_of_le hhi (h1 k)⟩

/-- The behaviour of `get_net_name`: either it resolves without touching
the state (port, global, or an already-assigned internal net), or it
assigns a fresh unique name built from the counter key and the current
count. -/
theorem getNetName_cases (portMap : List (String × String)) (pfx iname : String)
    (imap : List (String × String)) (σ : List (String × Nat)) (net : String) :
    ((getNetName portMap pfx iname imap σ net).2.1 = imap ∧
      (getNetName portMap pfx iname imap σ net).2.2 = σ) ∨
    ((getNetName portMap pfx iname imap σ net).1 =
        mkName (pfx ++ iname ++ "_" ++ net) (cnt σ (pfx ++ iname ++ "_" ++ net)) ∧
      (getNetName portMap pfx iname imap σ net).2.1 =
        imap ++ [(net, mkName (pfx ++ iname ++ "_" ++ net)
          (cnt σ (pfx ++ iname ++ "_" ++ net)))] ∧
      (getNetName portMap pfx iname imap σ net).2.2 =
        updateA σ (pfx ++ iname ++ "_" ++ net)
          (cnt σ (pfx ++ iname ++ "_" ++ net) + 1)) := by
  cases h1 : lookupA portMap net with
  | some conn =>
    have hval : getNetName portMap pfx iname imap σ net = (conn, imap, σ) := by
      unfold getNetName
      rw [h1]
    rw [hval]
    exact Or.inl ⟨rfl, rfl⟩
  | none =>
    by_cases h2 : net = "VDD" ∨ net = "VSS" ∨ net = "0"
    · have hval : getNetName portMap pfx iname imap σ net = (net, imap, σ) := by
        unfold getNetName
        rw [h1]
        simp only [h2, if_true]
      rw [hval]
      exact Or.inl ⟨rfl, rfl⟩
    · cases h3 : lookupA imap net with
      | some u =>
        have hval : getNetName portMap pfx iname imap σ net = (u, imap, σ) := by
          unfold getNetName
          rw [h1]
          simp only [h2, if_false]
          rw [h3]
        rw [hval]
        exact Or.inl ⟨rfl, rfl⟩
      | none =>
        right
        have hval : getNetName portMap pfx iname imap σ net =
            (mkName (pfx ++ iname ++ "_" ++ net) (cnt σ (pfx ++ iname ++ "_" ++ net)),
             imap ++ [(net, mkName (pfx ++ iname ++ "_" ++ net)
               (cnt σ (pfx ++ iname ++ "_" ++ net)))],
             updateA σ (pfx ++ iname ++ "_" ++ net)
               (cnt σ (pfx ++ iname ++ "_" ++ net) + 1)) := by
          unfold getNetName
          rw [h1]
          simp only [h2, if_false]
          rw [h3]
          by_cases hp : pfx ≠ ""
          · rw [if_pos hp, updateA_append_of_none imap net _ h3]
            rfl
          · push_neg at hp
            subst hp
            rw [if_neg (by simp), updateA_append_of_none imap net _ h3]
            rfl
        rw [hval]
        exact ⟨rfl, rfl, rfl⟩

/-- Counter monotonicity and new-name range through one net
resolution. -/
theorem getNetName_spec (portMap : List (String × String)) (pfx iname : String)
    (imap : List (String × String)) (σ : List (String × Nat)) (net : String) :
    cLE σ (getNetName portMap pfx iname imap σ net).2.2 ∧
    ∀ e ∈ (getNetName portMap pfx iname imap σ net).2.1,
      e ∈ imap ∨ InRange σ (getNetName portMap pfx iname imap σ net).2.2 e.2 := by
  rcases getNetName_cases portMap pfx iname imap σ net with ⟨hm, hσ⟩ | ⟨hn, hm, hσ⟩
  · rw [hm, hσ]
    exact ⟨cLE_refl σ, fun e he => Or.inl he⟩
  · rw [hm, hσ]
    constructor
    · intro k
      by_cases hk : k = pfx ++ iname ++ "_" ++ net
      · subst hk
        rw [cnt_updateA_self]
        omega
      · rw [cnt_updateA_ne _ _ _ _ hk]
    · intro e he
      rcases List.mem_append.mp he with h | h
      · exact Or.inl h
      · right
        have : e = (net, mkName (pfx ++ iname ++ "_" ++ net)
            (cnt σ (pfx ++ iname ++ "_" ++ net))) := List.mem_singleton.mp h
        rw [this]
        refine ⟨pfx ++ iname ++ "_" ++ net, cnt σ (pfx ++ iname ++ "_" ++ net),
          rfl, Nat.le_refl _, ?_⟩
        rw [cnt_updateA_self]
        omega

/-- Compose two state windows: monotonicity and new-entry ranges chain. -/
theorem window_comp (σ0 σ1 σ2 : List (String × Nat))
    (m0 m1 m2 : List (String × String))
    (h1le : cLE σ0 σ1) (h1 : ∀ e ∈ m1, e ∈ m0 ∨ InRange σ0 σ1 e.2)
    (h2le : cLE σ1 σ2) (h2 : ∀ e ∈ m2, e ∈ m1 ∨ InRange σ1 σ2 e.2) :
    cLE σ0 σ2 ∧ ∀ e ∈ m2, e ∈ m0 ∨ InRange σ0 σ2 e.2 := by
  refine ⟨cLE_trans _ _ _ h1le h2le, fun e he => ?_⟩
  rcases h2 e he with hin | hr
  · rcases h1 e hin with hin0 | hr0
    · exact Or.inl hin0
    · exact Or.inr (InRange_widen _ _ _ _ _ (cLE_refl σ0) hr0 h2le)
  · exact Or.inr (InRange_widen _ _ _ _ _ h1le hr (cLE_refl σ2))

/-- Counter monotonicity and new-name ranges through a net-list
mapping. -/
theorem mapNets_spec (portMap : List (String × String)) (pfx iname : String) :
    ∀ (nets : List String) (imap : List (String × String)) (σ : List (String × Nat)),
    cLE σ (mapNets portMap pfx iname imap σ nets).2.2 ∧
    ∀ e ∈ (mapNets portMap pfx iname imap σ nets).2.1,
      e ∈ imap ∨ InRange σ (mapNets portMap pfx iname imap σ nets).2.2 e.2 := by
  intro nets
  induction nets with
  | nil =>
    intro imap σ
    exact ⟨cLE_refl σ, fun e he => Or.inl he⟩
  | cons n rest ih =>
    intro imap σ
    obtain ⟨h1le, h1⟩ := getNetName_spec portMap pfx iname imap σ n
    obtain ⟨h2le, h2⟩ := ih (getNetName portMap pfx iname imap σ n).2.1
      (getNetName portMap pfx iname imap σ n).2.2
    exact window_comp _ _ _ _ _ _ h1le h1 h2le h2

/-- Counter monotonicity and new-name ranges through the body loop,
given that the recursive expansion of nested calls only grows the
counter. -/
theorem expandBody_spec
    (recur : String → List (String × Nat) → String → List String × List (String × Nat))
    (hrec : ∀ l σ p, cLE σ (recur l σ p).2)
    (pfx iname : String) (portMap : List (String × String)) :
    ∀ (body : List String) (imap : List (String × String)) (σ : List (String × Nat)),
    cLE σ (expandBody recur pfx iname portMap body imap σ).2.2 ∧
    ∀ e ∈ (expandBody recur pfx iname portMap body imap σ).2.1,
      e ∈ imap ∨ InRange σ (expandBody recur pfx iname portMap body imap σ).2.2 e.2 := by
  intro body
  induction body with
  | nil =>
    intro imap σ
    exact ⟨cLE_refl σ, fun e he => Or.inl he⟩
  | cons l rest ih =>
    intro imap σ
    unfold expandBody
    by_cases hguard : (pystrip l).data = [] ∨ (pystrip l).data.head? = some '*'
    · simp only [hguard, if_true]
      exact ih imap σ
    · simp only [hguard, if_false]
      cases hq : parse_instance_line (pystrip l) with
      | none => exact ih imap σ
      | some quad =>
        obtain ⟨qn, qnets, qty, qps⟩ := quad
        obtain ⟨h1le, h1⟩ := mapNets_spec portMap pfx iname qnets imap σ
        by_cases hqm : headUpperD qn = 'M'
        · simp only [hqm, if_true, if_pos]
          obtain ⟨h2le, h2⟩ := ih (mapNets portMap pfx iname imap σ qnets).2.1
            (mapNets portMap pfx iname imap σ qnets).2.2
          exact window_comp _ _ _ _ _ _ h1le h1 h2le h2
        · simp only [hqm, if_false]
          by_cases hqx : headUpperD qn = 'X'
          · simp only [hqx, if_true, if_pos]
            have step : ∀ σmid : List (String × Nat),
                cLE (mapNets portMap pfx iname imap σ qnets).2.2 σmid →
                cLE σ (expandBody recur pfx iname portMap rest
                  (mapNets portMap pfx iname imap σ qnets).2.1 σmid).2.2 ∧
                ∀ e ∈ (expandBody recur pfx iname portMap rest
                    (mapNets portMap pfx iname imap σ qnets).2.1 σmid).2.1,
                  e ∈ imap ∨ InRange σ (expandBody recur pfx iname portMap rest
                    (mapNets portMap pfx iname imap σ qnets).2.1 σmid).2.2 e.2 := by
              intro σmid hmidle
              obtain ⟨h3le, h3⟩ := ih (mapNets portMap pfx iname imap σ qnets).2.1 σmid
              have hmid := window_comp _ _ _ _ _ _ h1le h1 hmidle
                (fun e he => Or.inl he)
              exact window_comp _ _ _ _ _ _ hmid.1 hmid.2 h3le h3
            exact step _ (hrec _ _ _)
          · simp only [hqx, if_false]
            obtain ⟨h2le, h2⟩ := ih (mapNets portMap pfx iname imap σ qnets).2.1
              (mapNets portMap pfx iname imap σ qnets).2.2
            exact window_comp _ _ _ _ _ _ h1le h1 h2le h2

/-- Counter monotonicity and new-name ranges for one instance expansion:
every entry of the returned internal-net map carries a name generated
inside the counter window of the call. -/
theorem expand_spec : ∀ (fuel : Nat) (line : String)
    (defs : List (String × SubcircuitDefinition)) (σ : List (String × Nat))
    (pfx : String),
    cLE σ (expand_instance_to_transistors fuel line defs σ pfx).2.1 ∧
    ∀ e ∈ (expand_instance_to_transistors fuel line defs σ pfx).2.2,
      InRange σ (expand_instance_to_transistors fuel line defs σ pfx).2.1 e.2 := by
  intro fuel
  induction fuel with
  | zero =>
    intro line defs σ pfx
    exact ⟨cLE_refl σ, fun e he => absurd he (List.not_mem_nil e)⟩
  | succ fuel ih =>
    intro line defs σ pfx
    unfold expand_instance_to_transistors
    cases hp : parse_instance_line line with
    | none => exact ⟨cLE_refl σ, fun e he => absurd he (List.not_mem_nil e)⟩
    | some quad =>
      obtain ⟨iname, conns, ctype, ps⟩ := quad
      by_cases hm : headUpperD iname = 'M'
      · simp only [hm, if_true, if_pos]
        exact ⟨cLE_refl σ, fun e he => absurd he (List.not_mem_nil e)⟩
      · simp only [hm, if_false]
        cases hd : lookupA defs ctype with
        | none => exact ⟨cLE_refl σ, fun e he => absurd he (List.not_mem_nil e)⟩
        | some subckt =>
          have hrec : ∀ l σ2 p, cLE σ2
              ((fun l σ2 p =>
                 ((expand_instance_to_transistors fuel l defs σ2 p).1,
                  (expand_instance_to_transistors fuel l defs σ2 p).2.1)) l σ2 p).2 :=
            fun l σ2 p => (ih l defs σ2 p).1
          obtain ⟨hle, hent⟩ := expandBody_spec _ hrec pfx iname
            (buildPortMap subckt.ports conns []) subckt.instances [] σ
          refine ⟨hle, fun e he => ?_⟩
          rcases hent e he with hin | hr
          · exact absurd hin (List.not_mem_nil e)
          · exact hr

/-- C7: two instances of the same subcircuit definition with distinct
instance names, expanded in sequence with the one shared counter (as
`expand_to_transistor_level` does), assign pairwise distinct unique
names to their internal body nets; a body net that is a formal port
resolves to the caller-supplied connection unchanged, and a non-port
body net among the globals VDD, VSS, 0 passes through as itself. -/
theorem C7_lowering_uniqueness (fuel : Nat)
    (defs : List (String × SubcircuitDefinition)) (L1 L2 : String)
    (i1 i2 T : String) (conns1 conns2 ps1 ps2 : List String)
    (D : SubcircuitDefinition) (σ0 σ1 σ2 : List (String × Nat))
    (out1 out2 : List String) (m1 m2 : List (String × String))
    (hp1 : parse_instance_line L1 = some (i1, conns1, T, ps1))
    (hp2 : parse_instance_line L2 = some (i2, conns2, T, ps2))
    (hd : lookupA defs T = some D)
    (hne : i1 ≠ i2)
    (h1 : expand_instance_to_transistors fuel L1 defs σ0 "" = (out1, σ1, m1))
    (h2 : expand_instance_to_transistors fuel L2 defs σ1 "" = (out2, σ2, m2)) :
    (∀ e1 ∈ m1, ∀ e2 ∈ m2, e1.2 ≠ e2.2) ∧
    (∀ (net conn : String) (imap : List (String × String)) (σ : List (String × Nat)),
      lookupA (buildPortMap D.ports conns1 []) net = some conn →
      (getNetName (buildPortMap D.ports conns1 []) "" i1 imap σ net).1 = conn) ∧
    (∀ (net : String) (imap : List (String × String)) (σ : List (String × Nat)),
      lookupA (buildPortMap D.ports conns1 []) net = none →
      (net = "VDD" ∨ net = "VSS" ∨ net = "0") →
      (getNetName (buildPortMap D.ports conns1 []) "" i1 imap σ net).1 = net) := by
  refine ⟨?_, ?_, ?_⟩
  · intro e1 he1 e2 he2 heq
    have s1 := expand_spec fuel L1 defs σ0 ""
    have s2 := expand_spec fuel L2 defs σ1 ""
    rw [h1] at s1
    rw [h2] at s2
    obtain ⟨k1, c1, hn1, hlo1, hhi1⟩ := s1.2 e1 he1
    obtain ⟨k2, c2, hn2, hlo2, hhi2⟩ := s2.2 e2 he2
    rw [hn1, hn2] at heq
    obtain ⟨hk, hc⟩ := mkName_inj _ _ _ _ heq
    subst hk
    subst hc
    have hcon : c1 < cnt σ1 k1 := hhi1
    have hcon2 : cnt σ1 k1 ≤ c1 := hlo2
    omega
  · intro net conn imap σ hlk
    unfold getNetName
    rw [hlk]
  · intro net imap σ hlk hg
    unfold getNetName
    rw [hlk]
    simp [hg]

/-- C7 witness: two instances X1 and X2 of a subcircuit with internal
net mid, expanded with the shared counter, name their internal nets
X1_mid_0 and X2_mid_0; ports a, y pass through, globals pass through. -/
theorem C7_lowering_uniqueness_witness :
    ("X1" : String) ≠ "X2" ∧
    ((∀ e1 ∈ ([(("mid" : String), ("X1_mid_0" : String))] : List (String × String)),
        ∀ e2 ∈ ([(("mid" : String), ("X2_mid_0" : String))] : List (String × String)),
        e1.2 ≠ e2.2) ∧
     (∀ (net conn : String) (imap : List (String × String)) (σ : List (String × Nat)),
        lookupA (buildPortMap ["A", "Y"] ["a", "y"] []) net = some conn →
        (getNetName (buildPortMap ["A", "Y"] ["a", "y"] []) "" "X1" imap σ net).1 = conn) ∧
     (∀ (net : String) (imap : List (String × String)) (σ : List (String × Nat)),
        lookupA (buildPortMap ["A", "Y"] ["a", "y"] []) net = none →
        (net = "VDD" ∨ net = "VSS" ∨ net = "0") →
        (getNetName (buildPortMap ["A", "Y"] ["a", "y"] []) "" "X1" imap σ net).1 = net)) :=
  ⟨by decide,
   C7_lowering_uniqueness 3 c7Defs "X1 a y INV" "X2 b z INV" "X1" "X2" "INV"
     ["a", "y"] ["b", "z"] [] []
     (SubcircuitDefinition.mk "INV" ["A", "Y"]
       ["M1 mid A VSS VSS NMOS", "M2 Y mid VDD VDD PMOS"])
     [] [("X1_mid", 1)] [("X1_mid", 1), ("X2_mid", 1)]
     ["X1_X1 X1_mid_0 a VSS VSS NMOS", "X1_X2 y X1_mid_0 VDD VDD PMOS"]
     ["X2_X1 X2_mid_0 b VSS VSS NMOS", "X2_X2 z X2_mid_0 VDD VDD PMOS"]
     [("mid", "X1_mid_0")] [("mid", "X2_mid_0")]
     (by decide) (by decide) (by decide) (by decide) (by decide) (by decide)⟩

end V2S
